import Mathlib

/-!
Verification development for the prism module of cidc-schemas
(src/cidc_schemas/prism.py).

The Python module manipulates JSON-like documents (nested dicts and
lists).  We embed those documents as the inductive type `Json` below and
translate each function of the module into a Lean function over `Json`:

 - `_set_val`            -> `setValG` / `setValPy` (and `setParts`, `setLast`,
                            `walkJ`, `vivify` for the walking loop),
 - jsonpointer's `JsonPointer.walk` / `get_part` / `resolve_pointer`
                         -> `walkJ`, `matchIdx`, `idxOf`, `resolveJ`
                            (`parseIdx` is the canonical full-match array
                            index, used to state claims about canonical
                            numeric segments),
 - `_get_recursively`    -> `getRecursively`,
 - deepdiff `grep`       -> `grepStr` (paths to string leaves equal to a
                            key, case-insensitively),
 - `_get_path`           -> `getPath`,
 - `_get_source`         -> `getSource`,
 - `_split_wes_url`      -> `splitWesUrl`,
 - `_merge_artifact_wes` -> `mergeArtifactWes`,
 - `merge_artifact`      -> `mergeArtifact`,
 - `merge_clinical_trial_metadata` -> `mergeCTM` (with the external schema
   validator and the external jsonmerge merger as parameters; the merger
   modelled from the spec as `mergeJson`),
 - `prismify`            -> `prismify` (with the external spreadsheet
   reader and template abstracted into explicit input data).

Python statefulness is made explicit: a function that mutates a document
in place is embedded as a function returning the new document, and a
function that may raise becomes `Except String Json` (the message names
the Python exception class).  When a Python call raises, the partially
mutated document is discarded by the caller in all uses appearing in the
module, so the `.error` result carries no document.

Python string operations (`split`, `rstrip`, `int(...)`, ...) are
re-implemented over `List Char` so that all definitions evaluate inside
the kernel.
-/

/-- JSON-like Python values: None, bool, int, str, list, dict
(dicts keep insertion order, so they are embedded as ordered association
lists; Python dict keys are unique). -/
inductive Json where
  | null
  | bool (b : Bool)
  | num (n : Int)
  | str (s : String)
  | arr (xs : List Json)
  | obj (fs : List (String × Json))

mutual

/-- Decidable equality on `Json`, written by hand because the automatic
derivation does not handle the nested inductive. -/
def decEqJ : (a b : Json) → Decidable (a = b)
  | .null, .null => isTrue rfl
  | .bool x, .bool y =>
    match decEq x y with
    | isTrue h => isTrue (by rw [h])
    | isFalse h => isFalse (fun e => by cases e; exact h rfl)
  | .num x, .num y =>
    match decEq x y with
    | isTrue h => isTrue (by rw [h])
    | isFalse h => isFalse (fun e => by cases e; exact h rfl)
  | .str x, .str y =>
    match decEq x y with
    | isTrue h => isTrue (by rw [h])
    | isFalse h => isFalse (fun e => by cases e; exact h rfl)
  | .arr x, .arr y =>
    match decEqLJ x y with
    | isTrue h => isTrue (by rw [h])
    | isFalse h => isFalse (fun e => by cases e; exact h rfl)
  | .obj x, .obj y =>
    match decEqFJ x y with
    | isTrue h => isTrue (by rw [h])
    | isFalse h => isFalse (fun e => by cases e; exact h rfl)
  | .null, .bool _ => isFalse (fun e => by cases e)
  | .null, .num _ => isFalse (fun e => by cases e)
  | .null, .str _ => isFalse (fun e => by cases e)
  | .null, .arr _ => isFalse (fun e => by cases e)
  | .null, .obj _ => isFalse (fun e => by cases e)
  | .bool _, .null => isFalse (fun e => by cases e)
  | .bool _, .num _ => isFalse (fun e => by cases e)
  | .bool _, .str _ => isFalse (fun e => by cases e)
  | .bool _, .arr _ => isFalse (fun e => by cases e)
  | .bool _, .obj _ => isFalse (fun e => by cases e)
  | .num _, .null => isFalse (fun e => by cases e)
  | .num _, .bool _ => isFalse (fun e => by cases e)
  | .num _, .str _ => isFalse (fun e => by cases e)
  | .num _, .arr _ => isFalse (fun e => by cases e)
  | .num _, .obj _ => isFalse (fun e => by cases e)
  | .str _, .null => isFalse (fun e => by cases e)
  | .str _, .bool _ => isFalse (fun e => by cases e)
  | .str _, .num _ => isFalse (fun e => by cases e)
  | .str _, .arr _ => isFalse (fun e => by cases e)
  | .str _, .obj _ => isFalse (fun e => by cases e)
  | .arr _, .null => isFalse (fun e => by cases e)
  | .arr _, .bool _ => isFalse (fun e => by cases e)
  | .arr _, .num _ => isFalse (fun e => by cases e)
  | .arr _, .str _ => isFalse (fun e => by cases e)
  | .arr _, .obj _ => isFalse (fun e => by cases e)
  | .obj _, .null => isFalse (fun e => by cases e)
  | .obj _, .bool _ => isFalse (fun e => by cases e)
  | .obj _, .num _ => isFalse (fun e => by cases e)
  | .obj _, .str _ => isFalse (fun e => by cases e)
  | .obj _, .arr _ => isFalse (fun e => by cases e)
termination_by structural a => a

/-- Decidable equality on lists of `Json`. -/
def decEqLJ : (a b : List Json) → Decidable (a = b)
  | [], [] => isTrue rfl
  | [], _ :: _ => isFalse (fun e => by cases e)
  | _ :: _, [] => isFalse (fun e => by cases e)
  | x :: xs, y :: ys =>
    match decEqJ x y, decEqLJ xs ys with
    | isTrue h1, isTrue h2 => isTrue (by rw [h1, h2])
    | isFalse h1, _ => isFalse (fun e => by cases e; exact h1 rfl)
    | _, isFalse h2 => isFalse (fun e => by cases e; exact h2 rfl)
termination_by structural a => a

/-- Decidable equality on `Json` object field lists. -/
def decEqFJ : (a b : List (String × Json)) → Decidable (a = b)
  | [], [] => isTrue rfl
  | [], _ :: _ => isFalse (fun e => by cases e)
  | _ :: _, [] => isFalse (fun e => by cases e)
  | (n, v) :: xs, (m, w) :: ys =>
    match decEq n m, decEqJ v w, decEqFJ xs ys with
    | isTrue h1, isTrue h2, isTrue h3 => isTrue (by rw [h1, h2, h3])
    | isFalse h1, _, _ => isFalse (fun e => by cases e; exact h1 rfl)
    | _, isFalse h2, _ => isFalse (fun e => by cases e; exact h2 rfl)
    | _, _, isFalse h3 => isFalse (fun e => by cases e; exact h3 rfl)
termination_by structural a => a

end

instance : DecidableEq Json := decEqJ

/-! ## Python string primitives over `List Char` -/

/-- Python `s.split(sep)` for a one-character separator: always returns at
least one (possibly empty) group. -/
def splitChar (c : Char) : List Char → List (List Char)
  | [] => [[]]
  | x :: rest =>
    if x = c then [] :: splitChar c rest
    else
      match splitChar c rest with
      | [] => [[x]]
      | g :: gs => (x :: g) :: gs

/-- Python `s.split(sep, 1)` restricted to its failure-relevant shape:
`none` when the separator does not occur (so unpacking into two names
raises ValueError), otherwise the pieces before and after the first
separator. -/
def splitFirst (c : Char) : List Char → Option (List Char × List Char)
  | [] => none
  | x :: rest =>
    if x = c then some ([], rest)
    else (splitFirst c rest).map (fun p => (x :: p.1, p.2))

/-- Python `s.rstrip(c)`: drop trailing copies of `c`. -/
def rstripChar (c : Char) (s : List Char) : List Char :=
  (s.reverse.dropWhile (fun x => x = c)).reverse

/-- Python `s.strip(c)`: drop leading and trailing copies of `c`. -/
def stripChar (c : Char) (s : List Char) : List Char :=
  rstripChar c (s.dropWhile (fun x => x = c))

/-- Python `s.count(c)` for a single character. -/
def countChar (c : Char) (s : List Char) : Nat :=
  s.count c

/-- Digit run to a natural number; `none` on the empty list or any
non-digit character. -/
def digitsToNat : List Char → Option Nat
  | [] => none
  | cs =>
    if cs.all Char.isDigit then
      some (cs.foldl (fun acc c => acc * 10 + (c.toNat - 48)) 0)
    else none

/-- Python `int(s)` restricted to the shapes the module can meet:
an optional sign followed by decimal digits; `none` models ValueError. -/
def parsePyInt (s : List Char) : Option Int :=
  match s with
  | '-' :: rest => (digitsToNat rest).map (fun n => -(n : Int))
  | '+' :: rest => (digitsToNat rest).map (fun n => (n : Int))
  | _ => (digitsToNat s).map (fun n => (n : Int))

/-! ## jsonpointer primitives -/

/-- RFC 6901 array index test with its value, as used by jsonpointer's
array-index pattern: the whole segment is `0` or a nonzero digit followed
by digits (no sign, no leading zero). -/
def parseIdx (s : String) : Option Nat :=
  match s.toList with
  | [] => none
  | c :: rest =>
    if c = '0' then
      if rest = [] then some 0 else none
    else if ('1' ≤ c && c ≤ '9') && rest.all Char.isDigit then
      digitsToNat (c :: rest)
    else none

/-- The behavior of jsonpointer's `_RE_ARRAY_INDEX.match`: the pattern
`0|[1-9][0-9]*$` anchors only its second alternative, so `match` succeeds
on any segment beginning with `0` (a prefix match) and otherwise exactly
on the canonical nonzero decimal numerals. -/
def matchIdx (s : String) : Bool :=
  match s.toList with
  | [] => false
  | c :: rest => c = '0' || (('1' ≤ c && c ≤ '9') && rest.all Char.isDigit)

/-- The sequence index jsonpointer's `get_part` produces for a list: the
regex must match, then Python `int(part)` converts — every decimal-digit
segment (leading zeros allowed) yields its value, while a matching
non-numeric segment such as `0abc` raises ValueError (`none` here, with
the regex having matched; the callers below surface that ValueError). -/
def idxOf (s : String) : Option Nat :=
  if matchIdx s then digitsToNat s.toList else none

/-- jsonpointer segment unescaping, first pass: `~1` becomes `/`. -/
def unesc1 : List Char → List Char
  | [] => []
  | '~' :: '1' :: rest => '/' :: unesc1 rest
  | c :: rest => c :: unesc1 rest

/-- jsonpointer segment unescaping, second pass: `~0` becomes `~`. -/
def unesc0 : List Char → List Char
  | [] => []
  | '~' :: '0' :: rest => '~' :: unesc0 rest
  | c :: rest => c :: unesc0 rest

/-- jsonpointer segment unescaping, `part.replace("~1", "/").replace("~0", "~")`. -/
def unescape (s : List Char) : String :=
  (unesc0 (unesc1 s)).asString

/-- The `parts` of `JsonPointer(pointer)` for a pointer that starts with
a slash: split on `/`, drop the leading empty group, unescape each part. -/
def ptrParts (s : String) : List String :=
  ((splitChar '/' s.toList).drop 1).map unescape

/-- A canonical array index is in particular accepted by the regex and
converted to the same value. -/
theorem idxOf_parseIdx (s : String) (i : Nat) (h : parseIdx s = some i) :
    idxOf s = some i := by
  rw [parseIdx] at h
  rw [idxOf, matchIdx]
  cases hs : s.toList with
  | nil => rw [hs] at h; cases h
  | cons c rest =>
    rw [hs] at h
    have h2 : (if c = '0' then (if rest = [] then some 0 else none)
        else if (('1' ≤ c && c ≤ '9') && rest.all Char.isDigit : Bool)
          then digitsToNat (c :: rest) else none) = some i := h
    show (if (c = '0' || (('1' ≤ c && c ≤ '9') && rest.all Char.isDigit) : Bool)
        then digitsToNat (c :: rest) else none) = some i
    split at h2
    · rename_i hc
      split at h2
      · rename_i hr
        cases h2
        subst hc
        subst hr
        decide
      · cases h2
    · rename_i hc
      split at h2
      · rename_i hd
        simp [hd, h2]
      · cases h2

/-- First field of a Python dict with the given key (dict lookup). -/
def findF (n : String) : List (String × Json) → Option Json
  | [] => none
  | (m, v) :: rest => if m = n then some v else findF n rest

/-- Python dict item assignment `d[n] = v`: replace in place if the key
exists, else append the new key at the end (insertion order). -/
def setF : List (String × Json) → String → Json → List (String × Json)
  | [], n, v => [(n, v)]
  | (m, w) :: rest, n, v =>
    if m = n then (n, v) :: rest else (m, w) :: setF rest n v

/-- One step of jsonpointer's `walk`: `some` on success, `none` when the
walk fails (JsonPointerException or IndexError, which `_set_val`
catches).  A list segment that the index regex matches without being
numeric (such as `0abc`) makes `int` raise ValueError inside the walk;
that path is also `none` here and the creation branch of `setParts`
surfaces the same ValueError, so the composite behaves as the source.
Walking into a scalar never reaches an assignment in `_set_val` — every
such Python path raises before writing — so scalars are modelled as the
caught-exception case, which likewise ends in an error. -/
def walkJ : Json → String → Option Json
  | .obj fs, part => findF part fs
  | .arr l, part =>
    if part = "-" then none
    else
      match idxOf part with
      | some i => l[i]?
      | none => none
  | _, _ => none

/-- Lines 140 to 146 of prism.py: the container auto-vivified for a missing
segment, chosen by looking ahead at the next segment: an empty list when
the next segment is a dash or matches the array-index pattern, else an
empty dict. -/
def vivify (next : String) : Json :=
  if next = "-" || matchIdx next then .arr [] else .obj []

/-- Lines 162 to 177 of prism.py: setting the final pointer segment.
A dash appends to a list (and raises AttributeError on a dict).  On a
list, `get_part` demands a regex-matching segment (else
JsonPointerException) and converts it with `int` (ValueError when the
matching segment is not numeric); then an in-range index assigns, an
index equal to the length raises IndexError whose handler checks
`len(doc) == index` and appends, and a larger index fails that
assertion.  On a dict the key is set.  On any scalar the operation
raises. -/
def setLast (val : Json) (last : String) : Json → Except String Json
  | .arr l =>
    if last = "-" then .ok (.arr (l ++ [val]))
    else
      match idxOf last with
      | some i =>
        if i < l.length then .ok (.arr (l.set i val))
        else if i = l.length then .ok (.arr (l ++ [val]))
        else .error "AssertionError"
      | none => if matchIdx last then .error "ValueError" else .error "JsonPointerException"
  | .obj fs =>
    if last = "-" then .error "AttributeError"
    else .ok (.obj (setF fs last val))
  | _ => .error "TypeError"

/-- Rebuild after a successful walk: put the rewritten child back at the
walked-to position (Python mutates the child in place, so the parent sees
the change through aliasing). -/
def replaceAt (doc : Json) (part : String) (c : Json) : Json :=
  match doc with
  | .obj fs => .obj (setF fs part c)
  | .arr l =>
    match idxOf part with
    | some i => .arr (l.set i c)
    | none => .arr l
  | d => d

/-- Lines 122 to 177 of prism.py: walk the pointer parts, auto-vivifying
missing intermediate containers, then set the value at the last part.
When a missing list position is filled, Python assigns `doc[i] = thing`,
appends on IndexError, and re-walks; the re-walk raises unless the index
equalled the old length, and a dash segment in non-final position always
raises on the re-walk. -/
def setParts (val : Json) : List String → Json → Except String Json
  | [], _ => .error "IndexError"
  | [last], doc => setLast val last doc
  | part :: next :: rest, doc =>
    match walkJ doc part with
    | some sub => (setParts val (next :: rest) sub).map (replaceAt doc part)
    | none =>
      let thing := vivify next
      match doc with
      | .obj fs =>
        if part = "-" then .error "AttributeError"
        else (setParts val (next :: rest) thing).map (fun c => .obj (fs ++ [(part, c)]))
      | .arr l =>
        if part = "-" then .error "JsonPointerException"
        else
          match idxOf part with
          | some i =>
            if i = l.length then
              (setParts val (next :: rest) thing).map (fun c => .arr (l ++ [c]))
            else .error "JsonPointerException"
          | none => if matchIdx part then .error "ValueError" else .error "JsonPointerException"
      | _ => .error "JsonPointerException"

/-- jsonpointer's `resolve_pointer` given the already-split parts: pure
walking, no creation; any failure raises. -/
def resolveJ : Json → List String → Except String Json
  | doc, [] => .ok doc
  | doc, p :: ps =>
    match walkJ doc p with
    | some sub => resolveJ sub ps
    | none => .error "JsonPointerException"

/-- Rebuild `doc` with the subtree at the given (resolvable) path replaced
by `c`; models in-place mutation of a subobject seen from the root. -/
def replaceSubtree (doc : Json) : List String → Json → Json
  | [], c => c
  | p :: ps, c =>
    match walkJ doc p with
    | some sub => replaceAt doc p (replaceSubtree sub ps c)
    | none => doc

/-- Python `"/".join(groups) == ""`: true exactly for no group or a single
empty group. -/
def joinIsEmpty : List (List Char) → Bool
  | [] => true
  | [[]] => true
  | _ => false

/-- Lines 93 to 177 of prism.py (`_set_val` after its defaults): `root` is
the effective root object, `ctxPath` the actual location of the context
object inside it (empty when the context is the root itself), and
`ctxPtrStr?` the `context_pointer` string argument (`none` when the caller
left it None).  An absolute pointer walks from the context object.  A
relative pointer first splits off the jump count (ValueError when there is
no slash or the count does not parse), then checks the count against the
slash count of `context_pointer` (AttributeError when that is None,
AssertionError when the count is larger), and then walks from the chosen
ancestor: the root itself when the join of the remaining higher segments
is empty, else the object resolved at those segments. -/
def setValG (pointer : String) (val : Json) (root : Json) (ctxPath : List String)
    (ctxPtrStr? : Option String) : Except String Json :=
  if pointer.toList.head? = some '/' then
    match resolveJ root ctxPath with
    | .ok ctx => (setParts val (ptrParts pointer) ctx).map (replaceSubtree root ctxPath)
    | .error e => .error e
  else
    match splitFirst '/' pointer.toList with
    | none => .error "ValueError"
    | some (jstr, rem) =>
      match parsePyInt (rstripChar '#' jstr) with
      | none => .error "ValueError"
      | some j =>
        match ctxPtrStr? with
        | none => .error "AttributeError"
        | some cp =>
          if j ≤ (countChar '/' (rstripChar '/' cp.toList) : Int) then
            let parts := (splitChar '/' rem).map unescape
            if 0 < j then
              let segs := splitChar '/' (stripChar '/' cp.toList)
              let higher := segs.take (segs.length - j.toNat)
              if joinIsEmpty higher then
                setParts val parts root
              else
                match resolveJ root (higher.map unescape) with
                | .ok doc =>
                  (setParts val parts doc).map (replaceSubtree root (higher.map unescape))
                | .error e => .error e
            else
              match resolveJ root ctxPath with
              | .ok ctx => (setParts val parts ctx).map (replaceSubtree root ctxPath)
              | .error e => .error e
          else .error "AssertionError"

/-- Lines 88 to 90 of prism.py: the defaults of `_set_val`.  `root` is
reassigned to `context` when it was passed as None; the subsequent
`context_pointer` default tests the already-reassigned `root`, which is
never None, so `context_pointer` keeps whatever was passed — including
None.  When root was passed, the context is resolved at the context
pointer (the documented calling convention of the module). -/
def setValPy (pointer : String) (val : Json) (context : Json) (root? : Option Json)
    (ctxPtr? : Option String) : Except String Json :=
  match root? with
  | none => setValG pointer val context [] ctxPtr?
  | some r => setValG pointer val r ((ctxPtr?.map ptrParts).getD []) ctxPtr?

/-- Container-kind observations on `Json`. -/
def Json.isArr : Json → Bool
  | .arr _ => true
  | _ => false

/-- Mapping-kind observation on `Json`. -/
def Json.isObj : Json → Bool
  | .obj _ => true
  | _ => false

theorem setLast_shape (val : Json) (last : String) :
    ∀ (d d' : Json), setLast val last d = .ok d' →
      d'.isArr = d.isArr ∧ d'.isObj = d.isObj := by
  intro d d' h
  cases d <;> simp only [setLast] at h
  case arr l =>
    split at h
    · cases h; exact ⟨rfl, rfl⟩
    · split at h
      · split at h
        · cases h; exact ⟨rfl, rfl⟩
        · split at h
          · cases h; exact ⟨rfl, rfl⟩
          · cases h
      · split at h <;> cases h
  case obj fs =>
    split at h
    · cases h
    · cases h; exact ⟨rfl, rfl⟩
  all_goals cases h

theorem replaceAt_shape (doc : Json) (part : String) (c : Json) :
    (replaceAt doc part c).isArr = doc.isArr ∧ (replaceAt doc part c).isObj = doc.isObj := by
  cases doc
  case arr l =>
    rcases hp : idxOf part with _ | i <;>
      simp only [replaceAt, hp] <;> (constructor <;> trivial)
  all_goals exact ⟨rfl, rfl⟩

/-- A successful `setParts` never changes the container kind of the
document it writes into. -/
theorem setParts_shape (val : Json) :
    ∀ (ps : List String) (d d' : Json), setParts val ps d = .ok d' →
      d'.isArr = d.isArr ∧ d'.isObj = d.isObj := by
  intro ps
  induction ps with
  | nil => intro d d' h; simp only [setParts] at h; cases h
  | cons p rest ih =>
    intro d d' h
    cases rest with
    | nil => exact setLast_shape val p d d' h
    | cons next rs =>
      simp only [setParts] at h
      split at h
      · -- successful walk, child rewritten in place
        rename_i sub hw
        cases hsub : setParts val (next :: rs) sub with
        | error e => rw [hsub] at h; cases h
        | ok c =>
          rw [hsub] at h
          cases h
          exact replaceAt_shape d p c
      · -- creation branch
        cases d <;> simp only at h
        case obj fs =>
          split at h
          · cases h
          · cases hsub : setParts val (next :: rs) (vivify next) with
            | error e => rw [hsub] at h; cases h
            | ok c => rw [hsub] at h; cases h; exact ⟨rfl, rfl⟩
        case arr l =>
          split at h
          · cases h
          · split at h
            · split at h
              · cases hsub : setParts val (next :: rs) (vivify next) with
                | error e => rw [hsub] at h; cases h
                | ok c => rw [hsub] at h; cases h; exact ⟨rfl, rfl⟩
              · cases h
            · split at h <;> cases h
        all_goals cases h

/-- Claim C5: applying `_set_val` with pointer `0/prop1/prop2` and value
a dict with key `more` mapped to `props`, to context with `Pid` mapped to
1 at context path `/participants/0` inside the root holding that context
as the only participant, yields the root in which the context gained
`prop1.prop2` holding the value — exactly the module docstring example. -/
theorem setVal_docstring_example :
    setValPy "0/prop1/prop2" (.obj [("more", .str "props")])
      (.obj [("Pid", .num 1)])
      (some (.obj [("participants", .arr [.obj [("Pid", .num 1)]])]))
      (some "/participants/0")
    = .ok (.obj [("participants",
        .arr [.obj [("Pid", .num 1),
                    ("prop1", .obj [("prop2", .obj [("more", .str "props")])])]])]) := rfl

/-- Claim C3: when a pointer addresses a list position by a numeric index
(final segment or auto-vivified intermediate segment alike), an index
equal to the current length appends — the value itself for a final
segment, the auto-vivified container for an intermediate segment — and
any strictly larger index makes the call raise. -/
theorem setParts_array_index_bounds (l : List Json) (val : Json) (s : String) (i : Nat)
    (rest : List String) (hs : parseIdx s = some i) :
    (i = l.length →
      setParts val (s :: rest) (.arr l) =
        match rest with
        | [] => .ok (.arr (l ++ [val]))
        | next :: rs => (setParts val (next :: rs) (vivify next)).map (fun c => .arr (l ++ [c])))
    ∧ (l.length < i → ∃ msg, setParts val (s :: rest) (.arr l) = .error msg) := by
  have hdash : s ≠ "-" := by
    intro h
    rw [h] at hs
    rw [show parseIdx "-" = none from rfl] at hs
    cases hs
  have hsI : idxOf s = some i := idxOf_parseIdx s i hs
  constructor
  · intro hlen
    subst hlen
    cases rest with
    | nil =>
      simp only [setParts, setLast, if_neg hdash, hsI]
      simp
    | cons next rs =>
      have hw : walkJ (.arr l) s = none := by
        simp only [walkJ, if_neg hdash, hsI]
        exact List.getElem?_len_le (Nat.le_refl _)
      simp only [setParts, hw, hsI, if_neg hdash]
      simp
  · intro hlt
    cases rest with
    | nil =>
      refine ⟨"AssertionError", ?_⟩
      simp only [setParts, setLast, if_neg hdash, hsI]
      rw [if_neg (by omega), if_neg (by omega)]
    | cons next rs =>
      refine ⟨"JsonPointerException", ?_⟩
      have hw : walkJ (.arr l) s = none := by
        simp only [walkJ, if_neg hdash, hsI]
        exact List.getElem?_len_le (by omega)
      simp only [setParts, hw, hsI, if_neg hdash]
      rw [if_neg (by omega)]

theorem setParts_array_index_bounds_witness :
    (parseIdx "1" = some 1 ∧
      setParts (.str "v") ["1"] (.arr [.null]) = .ok (.arr [.null, .str "v"])) ∧
    (parseIdx "2" = some 2 ∧ [Json.null].length < 2 ∧
      ∃ msg, setParts (.str "v") ["2"] (.arr [.null]) = .error msg) := by
  refine ⟨⟨by decide, ?_⟩, by decide, by decide, ?_⟩
  · exact (setParts_array_index_bounds [.null] (.str "v") "1" 1 [] (by decide)).1 rfl
  · exact (setParts_array_index_bounds [.null] (.str "v") "2" 2 [] (by decide)).2 (by decide)

/-- Claim C6 (amended): every container auto-vivified by the walking
loop is the look-ahead container `vivify next`: an empty list exactly
when the next segment is a dash or is accepted by jsonpointer's
array-index regex as actually anchored (any segment beginning with 0, or
a canonical nonzero numeral), else an empty dict; on success the created
child keeps that container kind in the output.  The two conjuncts cover
the two successful creation sites: a missing dict key and a list index
whose `int` value equals the current length. -/
theorem setParts_vivify_kind (val : Json) (part next : String) (rest : List String)
    (fs : List (String × Json)) (l : List Json) :
    (findF part fs = none → part ≠ "-" →
      ∀ j, setParts val (part :: next :: rest) (.obj fs) = .ok j →
        ∃ c, j = .obj (fs ++ [(part, c)])
          ∧ c.isArr = (next = "-" || matchIdx next)
          ∧ c.isObj = !(next = "-" || matchIdx next))
    ∧ (idxOf part = some l.length →
      ∀ j, setParts val (part :: next :: rest) (.arr l) = .ok j →
        ∃ c, j = .arr (l ++ [c])
          ∧ c.isArr = (next = "-" || matchIdx next)
          ∧ c.isObj = !(next = "-" || matchIdx next)) := by
  have hshape : ∀ c, setParts val (next :: rest) (vivify next) = .ok c →
      c.isArr = (next = "-" || matchIdx next)
      ∧ c.isObj = !(next = "-" || matchIdx next) := by
    intro c hc
    have h := setParts_shape val (next :: rest) (vivify next) c hc
    by_cases hv : (next = "-" || matchIdx next) = true
    · rw [hv]
      have : vivify next = .arr [] := by simp only [vivify, if_pos hv]
      rw [this] at h
      exact ⟨by simpa [Json.isArr] using h.1, by simpa [Json.isObj] using h.2⟩
    · rw [Bool.not_eq_true] at hv
      rw [hv]
      have : vivify next = .obj [] := by simp only [vivify, hv, if_neg]; simp [hv]
      rw [this] at h
      exact ⟨by simpa [Json.isArr] using h.1, by simpa [Json.isObj] using h.2⟩
  constructor
  · intro hmiss hdash j hok
    have hw : walkJ (.obj fs) part = none := by simp only [walkJ, hmiss]
    simp only [setParts, hw, if_neg hdash] at hok
    cases hsub : setParts val (next :: rest) (vivify next) with
    | error e => rw [hsub] at hok; cases hok
    | ok c =>
      rw [hsub] at hok
      cases hok
      exact ⟨c, rfl, hshape c hsub⟩
  · intro hidx j hok
    have hdash : part ≠ "-" := by
      intro h
      rw [h] at hidx
      rw [show idxOf "-" = none from rfl] at hidx
      cases hidx
    have hw : walkJ (.arr l) part = none := by
      simp only [walkJ, if_neg hdash, hidx]
      exact List.getElem?_len_le (Nat.le_refl _)
    simp only [setParts, hw, hidx, if_neg hdash, if_pos rfl] at hok
    cases hsub : setParts val (next :: rest) (vivify next) with
    | error e => rw [hsub] at hok; cases hok
    | ok c =>
      rw [hsub] at hok
      cases hok
      exact ⟨c, rfl, hshape c hsub⟩

theorem setParts_vivify_kind_witness :
    (∃ c, (Json.obj [("a", Json.arr [Json.str "v"])]) = Json.obj ([] ++ [("a", c)])
      ∧ c.isArr = ("0" = "-" || matchIdx "0")
      ∧ c.isObj = !("0" = "-" || matchIdx "0"))
    ∧ (∃ c, (Json.obj [("a", Json.obj [("k", Json.str "v")])]) = Json.obj ([] ++ [("a", c)])
      ∧ c.isArr = ("k" = "-" || matchIdx "k")
      ∧ c.isObj = !("k" = "-" || matchIdx "k")) :=
  ⟨(setParts_vivify_kind (.str "v") "a" "0" [] [] []).1 rfl (by decide)
      (.obj [("a", .arr [.str "v"])]) rfl,
   (setParts_vivify_kind (.str "v") "a" "k" [] [] []).1 rfl (by decide)
      (.obj [("a", .obj [("k", .str "v")])]) rfl⟩

/-- Claim C6 (counterexample to the claim as stated): the segment 00 is
not a pure array index, yet the look-ahead vivifies a list for it —
jsonpointer's regex prefix-matches any segment beginning with 0 — and
the call even succeeds, appending the value through int("00") == 0. -/
theorem setVal_leading_zero_vivifies_list :
    parseIdx "00" = none ∧ vivify "00" = .arr [] ∧
    setValPy "/a/00" (.str "v") (.obj []) none none
      = .ok (.obj [("a", .arr [.str "v"])]) :=
  ⟨rfl, rfl, rfl⟩

/-- Claim C4 (amended): a relative pointer whose jump count strictly
exceeds the slash count of the context pointer fails the jump assertion
fatally; a jump count equal to that depth is accepted (the claim's
example 2/x at context path /a/0 succeeds, resolving at the root). -/
theorem setVal_jump_overflow (pointer : String) (val root : Json) (ctxPath : List String)
    (cp : String) (jstr rem : List Char) (j : Int)
    (h0 : pointer.toList.head? ≠ some '/')
    (h1 : splitFirst '/' pointer.toList = some (jstr, rem))
    (h2 : parsePyInt (rstripChar '#' jstr) = some j)
    (h3 : (countChar '/' (rstripChar '/' cp.toList) : Int) < j) :
    setValG pointer val root ctxPath (some cp) = .error "AssertionError" := by
  simp only [setValG, if_neg h0, h1, h2]
  rw [if_neg (by omega)]

theorem setVal_jump_overflow_witness :
    ("3/x".toList.head? ≠ some '/') ∧
    setValG "3/x" (.str "v") (.obj [("a", .arr [.obj [("Pid", .num 1)]])]) ["a", "0"]
      (some "/a/0") = .error "AssertionError" :=
  ⟨by decide,
    setVal_jump_overflow "3/x" (.str "v") (.obj [("a", .arr [.obj [("Pid", .num 1)]])])
      ["a", "0"] "/a/0" ['3'] ['x'] 3 (by decide) (by decide) (by decide) (by decide)⟩

/-- Claim C4 (counterexample to the claim as stated): the claim requires
pointer 2/x at context path /a/0 to fail fatally, but the jump assertion
accepts a jump count equal to the slash depth, so the call succeeds and
sets key x at the root. -/
theorem setVal_jump_depth_equal_succeeds :
    setValPy "2/x" (.str "v") (.obj [("Pid", .num 1)])
      (some (.obj [("a", .arr [.obj [("Pid", .num 1)]])]))
      (some "/a/0")
    = .ok (.obj [("a", .arr [.obj [("Pid", .num 1)]]), ("x", .str "v")]) := rfl

/-- Claim C10: with the optional root and context_pointer arguments left
as None, every relative pointer (one not starting with a slash) makes
`_set_val` raise.  Line 89 reassigns root to context before line 90 tests
`root is None`, so the default context path is never applied and
context_pointer is still None when the relative branch uses it
(AttributeError), unless the pointer already fails to parse (ValueError). -/
theorem setVal_defaults_relative_raises (pointer : String) (val context : Json)
    (h0 : pointer.toList.head? ≠ some '/') :
    ∃ msg, setValPy pointer val context none none = .error msg := by
  simp only [setValPy, setValG, if_neg h0]
  rcases splitFirst '/' pointer.toList with _ | ⟨jstr, rem⟩
  · exact ⟨"ValueError", by simp⟩
  · cases hp : parsePyInt (rstripChar '#' jstr)
    · exact ⟨"ValueError", by simp [hp]⟩
    · exact ⟨"AttributeError", by simp [hp]⟩

theorem setVal_defaults_relative_raises_witness :
    ("0/x".toList.head? ≠ some '/') ∧
    ∃ msg, setValPy "0/x" (.str "v") (.obj [("Pid", .num 1)]) none none = .error msg :=
  ⟨by decide, setVal_defaults_relative_raises "0/x" (.str "v") (.obj [("Pid", .num 1)]) (by decide)⟩

/-! ## Artifact merge: `_get_path`, `_get_source`, `_merge_artifact_wes`, `merge_artifact` -/

/-- One token of a deepdiff result path such as `root[0]["files"]`:
either a list index or a dict key (after `_get_source` has stripped the
quotes and tried `int(token)`; the embedding assumes dict keys are not
pure numerals, which holds for every key appearing in this module). -/
inductive Tok where
  | idx (i : Nat)
  | key (s : String)
  deriving DecidableEq

/-- Python `str.lower()` (ASCII identifiers in this module's documents
and templates). -/
def lowerStr (s : String) : String :=
  (s.toList.map Char.toLower).asString

mutual

/-- The deepdiff search `ct | grep(key, match_string=True)` restricted to
what `_get_path` reads from it: the depth-first, insertion-ordered list
of paths of string leaves whose lowercased text equals the lowercased
key (DeepSearch defaults to `case_sensitive=False`, lowering both the
searched item and each string before the `match_string` equality; dict
keys report to `matched_paths`, which `_get_path` ignores). -/
def grepStr (key : String) : Json → List (List Tok)
  | .str s => if lowerStr s = lowerStr key then [[]] else []
  | .arr xs => grepArr key xs 0
  | .obj fs => grepObj key fs
  | _ => []
termination_by structural j => j

/-- deepdiff search inside a list, tracking element indices. -/
def grepArr (key : String) : List Json → Nat → List (List Tok)
  | [], _ => []
  | x :: xs, i => (grepStr key x).map (fun p => Tok.idx i :: p) ++ grepArr key xs (i + 1)
termination_by structural l => l

/-- deepdiff search inside a dict, tracking keys. -/
def grepObj (key : String) : List (String × Json) → List (List Tok)
  | [] => []
  | (n, v) :: fs => (grepStr key v).map (fun p => Tok.key n :: p) ++ grepObj key fs
termination_by structural l => l

end

/-- Lines 396 to 419 of prism.py, `_get_path`: raise NotImplementedError
when the key matches nowhere; otherwise pop one matched path (an ordered
set pops its last element).  Lines 411 to 414 count the matches but a
count above one is never checked. -/
def getPath (ct : Json) (key : String) : Except String (List Tok) :=
  match (grepStr key ct).getLast? with
  | some p => .ok p
  | none => .error "NotImplementedError"

/-- Python slicing `tokens[0:slice]` for an optional (possibly negative)
bound. -/
def pySliceTo (slice : Option Int) (l : List Tok) : List Tok :=
  match slice with
  | none => l
  | some s => if 0 ≤ s then l.take s.toNat else l.take (l.length - (-s).toNat)

/-- Walking the sliced token path, `cur_obj = cur_obj[token]` with the
Python errors for a missing index or key or a scalar. -/
def getSourceWalk : Json → List Tok → Except String Json
  | doc, [] => .ok doc
  | doc, t :: ts =>
    match doc, t with
    | .arr l, .idx i =>
      match l[i]? with
      | some v => getSourceWalk v ts
      | none => .error "IndexError"
    | .obj fs, .key k =>
      match findF k fs with
      | some v => getSourceWalk v ts
      | none => .error "KeyError"
    | _, _ => .error "TypeError"

/-- Lines 422 to 453 of prism.py, `_get_source`: tokenize the path,
truncate by the slice, and index down from `ct`. -/
def getSource (ct : Json) (path : List Tok) (slice : Option Int) : Except String Json :=
  getSourceWalk ct (pySliceTo slice path)

/-- The parsed six segments of a WES object-storage URL (line 517). -/
structure WesFileUrlParts where
  lead_organization_study_id : String
  cimac_participant_id : String
  cimac_sample_id : String
  cimac_aliquot_id : String
  assay : String
  file_name : String
  deriving DecidableEq

/-- Lines 520 to 526 of prism.py, `_split_wes_url`: split on the slash
and demand exactly six tokens, anything else is an AssertionError. -/
def splitWesUrl (objUrl : String) : Except String WesFileUrlParts :=
  match (splitChar '/' objUrl.toList).map List.asString with
  | [a, b, c, d, e, f] => .ok ⟨a, b, c, d, e, f⟩
  | _ => .error "AssertionError"

/-- Line 493 of prism.py: `ct.get("assays", dict()).get("wes", list())`. -/
def allWESes (ct : Json) : Except String Json :=
  match ct with
  | .obj fs =>
    match (findF "assays" fs).getD (.obj []) with
    | .obj afs => .ok ((findF "wes" afs).getD (.arr []))
    | _ => .error "AttributeError"
  | _ => .error "AttributeError"

/-- Rebuild a document along a token path with a new subtree at its end;
models the in-place mutation of the record found by `_get_source`. -/
def setAtToks : Json → List Tok → Json → Json
  | _, [], c => c
  | .arr l, .idx i :: ts, c =>
    match l[i]? with
    | some v => .arr (l.set i (setAtToks v ts c))
    | none => .arr l
  | .obj fs, .key k :: ts, c =>
    match findF k fs with
    | some v => .obj (setF fs k (setAtToks v ts c))
    | none => .obj fs
  | d, _, _ => d

/-- Write back the mutated WES assay list into the trial (the Python code
mutates it in place through aliasing; this is only reached when the
assays dict and the wes entry exist, which the successful lookup
guarantees). -/
def setWes (ct : Json) (w : Json) : Json :=
  match ct with
  | .obj fs =>
    match findF "assays" fs with
    | some (.obj afs) => .obj (setF fs "assays" (.obj (setF afs "wes" w)))
    | _ => ct
  | _ => ct

/-- Lines 483 to 490 of prism.py: the artifact record.  Line 487 writes
the literal 1 as `file_size_bytes`; the `file_size_bytes` argument of the
enclosing function is never used. -/
def wesArtifactJson (objectUrl fileName uploadedTimestamp md5Hash : String) : Json :=
  .obj [("artifact_category", .str "Assay Artifact from CIMAC"),
        ("object_url", .str objectUrl),
        ("file_name", .str fileName),
        ("file_size_bytes", .num 1),
        ("md5_hash", .str md5Hash),
        ("uploaded_timestamp", .str uploadedTimestamp)]

/-- Lines 456 to 514 of prism.py, `_merge_artifact_wes`: parse the URL,
build the artifact record, find the record through `_get_path` and
`_get_source` with slice -1, re-check the three identifier fields, and
set the artifact under the record's files dict keyed by the file name. -/
def mergeArtifactWes (ct : Json) (objectUrl : String) (fileSizeBytes : Int)
    (uploadedTimestamp md5Hash : String) : Except String Json :=
  match splitWesUrl objectUrl with
  | .error e => .error e
  | .ok w =>
    let artifact : Json := wesArtifactJson objectUrl w.file_name uploadedTimestamp md5Hash
    match allWESes ct with
    | .error e => .error e
    | .ok wes =>
      match getPath wes w.cimac_aliquot_id with
      | .error e => .error e
      | .ok recordPath =>
        match getSource wes recordPath (some (-1)) with
        | .error e => .error e
        | .ok record =>
          match record with
          | .obj rfs =>
            match findF "cimac_aliquot_id" rfs, findF "cimac_sample_id" rfs,
                  findF "cimac_participant_id" rfs with
            | some va, some vs, some vp =>
              if va = .str w.cimac_aliquot_id then
                if vs = .str w.cimac_sample_id then
                  if vp = .str w.cimac_participant_id then
                    match findF "files" rfs with
                    | some (.obj ffs) =>
                      let record2 : Json :=
                        .obj (setF rfs "files" (.obj (setF ffs w.file_name artifact)))
                      .ok (setWes ct (setAtToks wes recordPath.dropLast record2))
                    | some _ => .error "TypeError"
                    | none => .error "KeyError"
                  else .error "AssertionError"
                else .error "AssertionError"
              else .error "AssertionError"
            | _, _, _ => .error "KeyError"
          | _ => .error "TypeError"

/-- Lines 529 to 566 of prism.py, `merge_artifact`: dispatch on the assay
name, only wes is supported. -/
def mergeArtifact (ct : Json) (assay : String) (objectUrl : String) (fileSizeBytes : Int)
    (uploadedTimestamp md5Hash : String) : Except String Json :=
  if assay = "wes" then
    mergeArtifactWes ct objectUrl fileSizeBytes uploadedTimestamp md5Hash
  else .error "NotImplementedError"

/-- A WES record with the three identifier fields and a files dict. -/
def wesRecord (p s a : String) (files : List (String × Json)) : Json :=
  .obj [("cimac_participant_id", .str p), ("cimac_sample_id", .str s),
        ("cimac_aliquot_id", .str a), ("files", .obj files)]

/-- A trial whose WES assay list holds two records with the same
identifier tuple. -/
def twoRecordTrial (p s a : String) (files1 files2 : List (String × Json)) : Json :=
  .obj [("assays", .obj [("wes", .arr [wesRecord p s a files1, wesRecord p s a files2])])]

theorem grepStr_str (key s : String) :
    grepStr key (.str s) = if lowerStr s = lowerStr key then [[]] else [] := rfl

theorem grepStr_arr (key : String) (xs : List Json) :
    grepStr key (.arr xs) = grepArr key xs 0 := rfl

theorem grepStr_obj (key : String) (fs : List (String × Json)) :
    grepStr key (.obj fs) = grepObj key fs := rfl

theorem grepArr_nil (key : String) (i : Nat) : grepArr key [] i = [] := rfl

theorem grepArr_cons (key : String) (x : Json) (xs : List Json) (i : Nat) :
    grepArr key (x :: xs) i
      = (grepStr key x).map (fun p => Tok.idx i :: p) ++ grepArr key xs (i + 1) := rfl

theorem grepObj_nil (key : String) : grepObj key [] = [] := rfl

theorem grepObj_cons (key n : String) (v : Json) (fs : List (String × Json)) :
    grepObj key ((n, v) :: fs)
      = (grepStr key v).map (fun p => Tok.key n :: p) ++ grepObj key fs := rfl

theorem grep_wesRecord (p s a : String) (files : List (String × Json))
    (hp : lowerStr p ≠ lowerStr a) (hs : lowerStr s ≠ lowerStr a)
    (hf : grepStr a (.obj files) = []) :
    grepStr a (wesRecord p s a files) = [[Tok.key "cimac_aliquot_id"]] := by
  show grepObj a [("cimac_participant_id", .str p), ("cimac_sample_id", .str s),
      ("cimac_aliquot_id", .str a), ("files", .obj files)] = _
  rw [grepObj_cons, grepObj_cons, grepObj_cons, grepObj_cons, grepObj_nil,
    grepStr_str, grepStr_str, grepStr_str, if_neg hp, if_neg hs, if_pos rfl, hf]
  rfl

/-- Claim C1 (amended): in the WES artifact lookup (a case-insensitive
deepdiff string search), zero matches for the parsed aliquot identifier
is a fatal lookup error, but more than one match is never detected: the
search pops the last matched path and the merge proceeds on that record.
In particular, for a document whose two WES records share the same
identifier tuple, the merge succeeds and writes the artifact into the
second record. -/
theorem mergeArtifact_lookup_behaviour :
    (∀ (ct : Json) (url : String) (sz : Int) (ts md5 : String) (w : WesFileUrlParts)
      (wes : Json), splitWesUrl url = .ok w → allWESes ct = .ok wes →
      grepStr w.cimac_aliquot_id wes = [] →
      mergeArtifact ct "wes" url sz ts md5 = .error "NotImplementedError")
    ∧ (∀ (org p s a asy fn url ts md5 : String) (sz : Int)
      (files1 files2 : List (String × Json)),
      splitWesUrl url = .ok ⟨org, p, s, a, asy, fn⟩ →
      lowerStr p ≠ lowerStr a → lowerStr s ≠ lowerStr a →
      grepStr a (.obj files1) = [] → grepStr a (.obj files2) = [] →
      mergeArtifact (twoRecordTrial p s a files1 files2) "wes" url sz ts md5
        = .ok (twoRecordTrial p s a files1
            (setF files2 fn (wesArtifactJson url fn ts md5)))) := by
  constructor
  · intro ct url sz ts md5 w wes hurl hwes hzero
    show mergeArtifactWes ct url sz ts md5 = _
    simp only [mergeArtifactWes, hurl, hwes, getPath, hzero, List.getLast?]
  · intro org p s a asy fn url ts md5 sz files1 files2 hurl hp hs hf1 hf2
    have hwes : allWESes (twoRecordTrial p s a files1 files2)
        = .ok (.arr [wesRecord p s a files1, wesRecord p s a files2]) := rfl
    have hgrep : grepStr a (.arr [wesRecord p s a files1, wesRecord p s a files2])
        = [[Tok.idx 0, Tok.key "cimac_aliquot_id"],
           [Tok.idx 1, Tok.key "cimac_aliquot_id"]] := by
      rw [grepStr_arr, grepArr_cons, grepArr_cons, grepArr_nil,
        grep_wesRecord p s a files1 hp hs hf1, grep_wesRecord p s a files2 hp hs hf2]
      rfl
    have hpath : getPath (.arr [wesRecord p s a files1, wesRecord p s a files2]) a
        = .ok [Tok.idx 1, Tok.key "cimac_aliquot_id"] := by
      rw [getPath, hgrep]
      rfl
    show mergeArtifactWes (twoRecordTrial p s a files1 files2) url sz ts md5 = _
    simp only [mergeArtifactWes, hurl, hwes, hpath]
    simp [getSource, pySliceTo, getSourceWalk, wesRecord, findF, setWes,
      setAtToks, setF, twoRecordTrial]

theorem mergeArtifact_lookup_behaviour_witness :
    (mergeArtifact (.obj [("assays", .obj [("wes", .arr [])])]) "wes"
       "o/p/s/a/wes/f" 7 "ts" "m" = .error "NotImplementedError")
    ∧ (mergeArtifact (twoRecordTrial "p1" "s1" "a1" [] []) "wes"
        "org/p1/s1/a1/wes/fwd.fastq" 7 "ts" "m"
        = .ok (twoRecordTrial "p1" "s1" "a1" []
            (setF [] "fwd.fastq"
              (wesArtifactJson "org/p1/s1/a1/wes/fwd.fastq" "fwd.fastq" "ts" "m")))) :=
  ⟨mergeArtifact_lookup_behaviour.1 (.obj [("assays", .obj [("wes", .arr [])])])
      "o/p/s/a/wes/f" 7 "ts" "m" ⟨"o", "p", "s", "a", "wes", "f"⟩ (.arr []) rfl rfl rfl,
   mergeArtifact_lookup_behaviour.2 "org" "p1" "s1" "a1" "wes" "fwd.fastq"
      "org/p1/s1/a1/wes/fwd.fastq" "ts" "m" 7 [] [] rfl (by decide) (by decide) rfl rfl⟩

/-- Claim C1 (counterexample to the claim as stated): a document in which
two WES records share the identifier tuple P, S, A.  The claim requires
the merge to fail, but it succeeds, silently writing the artifact into
the second record. -/
theorem mergeArtifact_ambiguous_succeeds :
    mergeArtifact
      (.obj [("assays", .obj [("wes", .arr [
        .obj [("cimac_participant_id", .str "P"), ("cimac_sample_id", .str "S"),
              ("cimac_aliquot_id", .str "A"), ("files", .obj [])],
        .obj [("cimac_participant_id", .str "P"), ("cimac_sample_id", .str "S"),
              ("cimac_aliquot_id", .str "A"), ("files", .obj [])]])])])
      "wes" "org1/P/S/A/wes/reads.fastq" 42 "2019-01-01" "deadbeef"
    = .ok (.obj [("assays", .obj [("wes", .arr [
        .obj [("cimac_participant_id", .str "P"), ("cimac_sample_id", .str "S"),
              ("cimac_aliquot_id", .str "A"), ("files", .obj [])],
        .obj [("cimac_participant_id", .str "P"), ("cimac_sample_id", .str "S"),
              ("cimac_aliquot_id", .str "A"),
              ("files", .obj [("reads.fastq", .obj [
                ("artifact_category", .str "Assay Artifact from CIMAC"),
                ("object_url", .str "org1/P/S/A/wes/reads.fastq"),
                ("file_name", .str "reads.fastq"),
                ("file_size_bytes", .num 1),
                ("md5_hash", .str "deadbeef"),
                ("uploaded_timestamp", .str "2019-01-01")])])]])])]) := rfl

/-- Claim C2 (divergence): `merge_artifact` is called with
file_size_bytes 12345, the lookup succeeds, and the artifact written into
the record's files dict carries `file_size_bytes` 1 — the literal from
line 487 — not the size passed by the caller. -/
theorem mergeArtifact_ignores_size_argument :
    mergeArtifact
      (.obj [("assays", .obj [("wes", .arr [
        .obj [("cimac_participant_id", .str "CP"), ("cimac_sample_id", .str "CS"),
              ("cimac_aliquot_id", .str "CA"), ("files", .obj [])]])])])
      "wes" "org/CP/CS/CA/wes/fwd.fastq" 12345 "2019-06-01" "abc123"
    = .ok (.obj [("assays", .obj [("wes", .arr [
        .obj [("cimac_participant_id", .str "CP"), ("cimac_sample_id", .str "CS"),
              ("cimac_aliquot_id", .str "CA"),
              ("files", .obj [("fwd.fastq", .obj [
                ("artifact_category", .str "Assay Artifact from CIMAC"),
                ("object_url", .str "org/CP/CS/CA/wes/fwd.fastq"),
                ("file_name", .str "fwd.fastq"),
                ("file_size_bytes", .num 1),
                ("md5_hash", .str "abc123"),
                ("uploaded_timestamp", .str "2019-06-01")])])]])])]) := rfl

/-! ## Trial document merge: the external jsonmerge merger and
`merge_clinical_trial_metadata` -/

/-- Modelled from the spec: the identifier key of an array element for
the schema-declared array merge — the element's value at the declared key
field, None when absent or when the element is not a mapping. -/
def keyOf (k : String) (j : Json) : Json :=
  match j with
  | .obj fs => (findF k fs).getD .null
  | _ => .null

/-- Modelled from the spec: first element of the base-or-patch array
whose identifier key equals the given key. -/
def findElem (k : String) (key : Json) : List Json → Option Json
  | [] => none
  | p :: rest => if keyOf k p = key then some p else findElem k key rest

mutual

/-- Modelled from the spec: the structural merge service (the external
jsonmerge merger, absent from src) following section 4.5 of the spec:
object fields merge recursively with patch overriding on conflict and
new patch fields appended; arrays merge by the schema-declared key `k`,
matching elements with equal keys merged recursively and new-keyed patch
elements appended after the existing ones in the base's original order;
everything else is overridden by the patch. -/
def mergeJson (k : String) : Json → Json → Json
  | .obj bs, .obj ps =>
    .obj (mergeFields k bs ps ++ ps.filter (fun q => !(bs.any (fun b => b.1 = q.1))))
  | .arr bs, .arr ps =>
    .arr (mergeElems k bs ps ++ ps.filter (fun p => !(bs.any (fun b => keyOf k b = keyOf k p))))
  | _, p => p
termination_by structural b => b

/-- Modelled from the spec: recursive merge of the base object's fields
with the patch object's fields. -/
def mergeFields (k : String) : List (String × Json) → List (String × Json) → List (String × Json)
  | [], _ => []
  | (n, v) :: rest, ps =>
    (n, match findF n ps with
        | some pv => mergeJson k v pv
        | none => v) :: mergeFields k rest ps
termination_by structural l => l

/-- Modelled from the spec: recursive merge of the base array's elements
with the key-matching patch elements. -/
def mergeElems (k : String) : List Json → List Json → List Json
  | [], _ => []
  | b :: rest, ps =>
    (match findElem k (keyOf k b) ps with
     | some p => mergeJson k b p
     | none => b) :: mergeElems k rest ps
termination_by structural l => l

end

/-- Pairwise-distinct identifier keys in an array (the jsonmerge
arrayMergeById precondition: a repeated id in one document is an error,
so a merged document never carries one). -/
def nodupKeysJ (k : String) : List Json → Bool
  | [] => true
  | x :: xs => !(xs.any (fun y => keyOf k y = keyOf k x)) && nodupKeysJ k xs

/-- Pairwise-distinct field names (Python dicts cannot repeat keys). -/
def nodupNames : List (String × Json) → Bool
  | [] => true
  | (n, _) :: fs => !(fs.any (fun q => q.1 = n)) && nodupNames fs

mutual

/-- The document invariant for the merge lemmas: every object has
pairwise-distinct field names and every array pairwise-distinct
identifier keys, recursively. -/
def keysNodup (k : String) : Json → Bool
  | .arr xs => nodupKeysJ k xs && keysNodupL k xs
  | .obj fs => nodupNames fs && keysNodupF k fs
  | _ => true
termination_by structural j => j

/-- The invariant over a list of array elements. -/
def keysNodupL (k : String) : List Json → Bool
  | [] => true
  | x :: xs => keysNodup k x && keysNodupL k xs
termination_by structural l => l

/-- The invariant over object fields. -/
def keysNodupF (k : String) : List (String × Json) → Bool
  | [] => true
  | (_, v) :: fs => keysNodup k v && keysNodupF k fs
termination_by structural l => l

end

/-- Python `d.get(key)` with the None default, on a document. -/
def getField (j : Json) (n : String) : Option Json :=
  match j with
  | .obj fs => findF n fs
  | _ => none

/-- Lines 569 to 607 of prism.py, `merge_clinical_trial_metadata`.  The
schema validator and the jsonmerge merger are external collaborators,
abstracted as the parameters `valid` and `merger`.  Order as in the
source: validate target, validate patch, compare the top-level
lead_organization_study_id of both (`dict.get`, None when absent —
validated trial documents are objects), merge target with patch, validate
the result.  No step before the merge mutates either input, so the error
results carry no changed documents. -/
def mergeCTM (valid : Json → Bool) (merger : Json → Json → Json)
    (patch target : Json) : Except String Json :=
  if valid target = true then
    if valid patch = true then
      if getField patch "lead_organization_study_id"
          = getField target "lead_organization_study_id" then
        let merged := merger target patch
        if valid merged = true then .ok merged else .error "ValidationError merged"
      else .error "RuntimeError"
    else .error "ValidationError patch"
  else .error "ValidationError target"

/-! ### Unfolding equations and list-level lemmas for the merge -/

theorem mergeJson_obj (k : String) (bs ps : List (String × Json)) :
    mergeJson k (.obj bs) (.obj ps)
      = .obj (mergeFields k bs ps ++ ps.filter (fun q => !(bs.any (fun b => b.1 = q.1)))) := rfl

theorem mergeJson_arr (k : String) (bs ps : List Json) :
    mergeJson k (.arr bs) (.arr ps)
      = .arr (mergeElems k bs ps
          ++ ps.filter (fun p => !(bs.any (fun b => keyOf k b = keyOf k p)))) := rfl

theorem mergeFields_nil (k : String) (ps : List (String × Json)) :
    mergeFields k [] ps = [] := rfl

theorem mergeFields_cons (k n : String) (v : Json) (rest ps : List (String × Json)) :
    mergeFields k ((n, v) :: rest) ps
      = (n, match findF n ps with
            | some pv => mergeJson k v pv
            | none => v) :: mergeFields k rest ps := rfl

theorem mergeElems_nil (k : String) (ps : List Json) : mergeElems k [] ps = [] := rfl

theorem mergeElems_cons (k : String) (b : Json) (rest ps : List Json) :
    mergeElems k (b :: rest) ps
      = (match findElem k (keyOf k b) ps with
         | some p => mergeJson k b p
         | none => b) :: mergeElems k rest ps := rfl

theorem keysNodup_arr (k : String) (xs : List Json) :
    keysNodup k (.arr xs) = (nodupKeysJ k xs && keysNodupL k xs) := rfl

theorem keysNodup_obj (k : String) (fs : List (String × Json)) :
    keysNodup k (.obj fs) = (nodupNames fs && keysNodupF k fs) := rfl

theorem andT {a b : Bool} (h : (a && b) = true) : a = true ∧ b = true := by
  simpa [Bool.and_eq_true] using h

theorem keysNodupL_mem (k : String) (xs : List Json) (h : keysNodupL k xs = true) :
    ∀ b ∈ xs, keysNodup k b = true := by
  induction xs with
  | nil => intro b hb; cases hb
  | cons x rest ih =>
    intro b hb
    have h' : keysNodup k x = true ∧ keysNodupL k rest = true := andT h
    rcases List.mem_cons.1 hb with rfl | hb'
    · exact h'.1
    · exact ih h'.2 b hb'

theorem keysNodupF_mem (k : String) (fs : List (String × Json)) (h : keysNodupF k fs = true) :
    ∀ p ∈ fs, keysNodup k p.2 = true := by
  induction fs with
  | nil => intro p hp; cases hp
  | cons q rest ih =>
    intro p hp
    obtain ⟨n, v⟩ := q
    have h' : keysNodup k v = true ∧ keysNodupF k rest = true := andT h
    rcases List.mem_cons.1 hp with rfl | hp'
    · exact h'.1
    · exact ih h'.2 p hp'

theorem findF_mem (n : String) (fs : List (String × Json)) (v : Json)
    (h : findF n fs = some v) : (n, v) ∈ fs := by
  induction fs with
  | nil => cases h
  | cons q rest ih =>
    obtain ⟨m, w⟩ := q
    by_cases hm : m = n
    · subst hm
      rw [findF, if_pos rfl] at h
      cases h
      exact List.mem_cons_self _ _
    · rw [findF, if_neg hm] at h
      exact List.mem_cons_of_mem _ (ih h)

theorem findF_none (n : String) (fs : List (String × Json)) (h : findF n fs = none) :
    ∀ p ∈ fs, p.1 ≠ n := by
  induction fs with
  | nil => intro p hp; cases hp
  | cons q rest ih =>
    intro p hp
    obtain ⟨m, w⟩ := q
    by_cases hm : m = n
    · subst hm; rw [findF, if_pos rfl] at h; cases h
    · rw [findF, if_neg hm] at h
      rcases List.mem_cons.1 hp with rfl | hp'
      · exact hm
      · exact ih h p hp'

theorem findF_nodup (n : String) (fs : List (String × Json)) (v : Json)
    (hnd : nodupNames fs = true) (h : (n, v) ∈ fs) : findF n fs = some v := by
  induction fs with
  | nil => cases h
  | cons q rest ih =>
    obtain ⟨m, w⟩ := q
    have hnd' : (!(rest.any (fun q => q.1 = m)) && nodupNames rest) = true := hnd
    have h1 : rest.any (fun q => q.1 = m) = false := by
      have := (andT hnd').1
      simpa using this
    have h2 : nodupNames rest = true := (andT hnd').2
    rcases List.mem_cons.1 h with he | h'
    · cases he
      rw [findF, if_pos rfl]
    · by_cases hm : m = n
      · subst hm
        exfalso
        have : rest.any (fun q => q.1 = m) = true := by
          apply List.any_eq_true.2
          exact ⟨(m, v), h', by simp⟩
        rw [this] at h1
        cases h1
      · rw [findF, if_neg hm]
        exact ih h2 h'

theorem findElem_spec (k : String) (key : Json) (xs : List Json) (p : Json)
    (h : findElem k key xs = some p) : keyOf k p = key ∧ p ∈ xs := by
  induction xs with
  | nil => cases h
  | cons x rest ih =>
    by_cases hx : keyOf k x = key
    · rw [findElem, if_pos hx] at h
      cases h
      exact ⟨hx, List.mem_cons_self _ _⟩
    · rw [findElem, if_neg hx] at h
      obtain ⟨h1, h2⟩ := ih h
      exact ⟨h1, List.mem_cons_of_mem _ h2⟩

theorem findElem_none (k : String) (key : Json) (xs : List Json)
    (h : findElem k key xs = none) : ∀ p ∈ xs, keyOf k p ≠ key := by
  induction xs with
  | nil => intro p hp; cases hp
  | cons x rest ih =>
    intro p hp
    by_cases hx : keyOf k x = key
    · rw [findElem, if_pos hx] at h; cases h
    · rw [findElem, if_neg hx] at h
      rcases List.mem_cons.1 hp with rfl | hp'
      · exact hx
      · exact ih h p hp'

theorem findElem_nodup (k : String) (xs : List Json) (hnd : nodupKeysJ k xs = true) :
    ∀ b ∈ xs, findElem k (keyOf k b) xs = some b := by
  induction xs with
  | nil => intro b hb; cases hb
  | cons x rest ih =>
    intro b hb
    have hnd' : (!(rest.any (fun y => keyOf k y = keyOf k x)) && nodupKeysJ k rest) = true := hnd
    have h1 : rest.any (fun y => keyOf k y = keyOf k x) = false := by
      have := (andT hnd').1
      simpa using this
    have h2 : nodupKeysJ k rest = true := (andT hnd').2
    rcases List.mem_cons.1 hb with rfl | hb'
    · rw [findElem, if_pos rfl]
    · by_cases hx : keyOf k x = keyOf k b
      · exfalso
        have : rest.any (fun y => keyOf k y = keyOf k x) = true := by
          apply List.any_eq_true.2
          refine ⟨b, hb', by simp [hx]⟩
        rw [this] at h1
        cases h1
      · rw [findElem, if_neg hx]
        exact ih h2 b hb'

theorem findF_eq_none_of (n : String) (fs : List (String × Json))
    (h : ∀ p ∈ fs, p.1 ≠ n) : findF n fs = none := by
  induction fs with
  | nil => rfl
  | cons q rest ih =>
    obtain ⟨m, w⟩ := q
    have hm : m ≠ n := h (m, w) (List.mem_cons_self _ _)
    rw [findF, if_neg hm]
    exact ih (fun p hp => h p (List.mem_cons_of_mem _ hp))

theorem findF_append (n : String) (l1 l2 : List (String × Json)) :
    findF n (l1 ++ l2)
      = match findF n l1 with
        | some v => some v
        | none => findF n l2 := by
  induction l1 with
  | nil => rfl
  | cons q rest ih =>
    obtain ⟨m, w⟩ := q
    by_cases hm : m = n
    · subst hm
      rw [List.cons_append, findF, if_pos rfl, findF, if_pos rfl]
    · rw [List.cons_append, findF, if_neg hm, findF, if_neg hm, ih]

theorem findF_mergeFields (k n : String) (bs ps : List (String × Json)) :
    findF n (mergeFields k bs ps)
      = match findF n bs with
        | some v => some (match findF n ps with
                          | some pv => mergeJson k v pv
                          | none => v)
        | none => none := by
  induction bs with
  | nil => rfl
  | cons q rest ih =>
    obtain ⟨m, w⟩ := q
    by_cases hm : m = n
    · subst hm
      rw [mergeFields_cons, findF, if_pos rfl, findF, if_pos rfl]
    · rw [mergeFields_cons, findF, if_neg hm, findF, if_neg hm, ih]

theorem findF_filter (n : String) (fs : List (String × Json)) (pred : String × Json → Bool)
    (h : ∀ q ∈ fs, q.1 = n → pred q = true) :
    findF n (fs.filter pred) = findF n fs := by
  induction fs with
  | nil => rfl
  | cons q rest ih =>
    obtain ⟨m, w⟩ := q
    by_cases hm : m = n
    · subst hm
      have : pred (m, w) = true := h (m, w) (List.mem_cons_self _ _) rfl
      rw [List.filter_cons_of_pos this, findF, if_pos rfl, findF, if_pos rfl]
    · have ih' := ih (fun q hq => h q (List.mem_cons_of_mem _ hq))
      by_cases hp : pred (m, w) = true
      · rw [List.filter_cons_of_pos hp, findF, if_neg hm, findF, if_neg hm, ih']
      · rw [List.filter_cons_of_neg (by simpa using hp), findF, if_neg hm, ih']

theorem filter_selfNames (fs : List (String × Json)) :
    fs.filter (fun q => !(fs.any (fun b => b.1 = q.1))) = [] := by
  rw [List.filter_eq_nil_iff]
  intro q hq
  have : fs.any (fun b => b.1 = q.1) = true := List.any_eq_true.2 ⟨q, hq, by simp⟩
  simp [this]

theorem filter_selfKeys (k : String) (xs : List Json) :
    xs.filter (fun p => !(xs.any (fun b => keyOf k b = keyOf k p))) = [] := by
  rw [List.filter_eq_nil_iff]
  intro p hp
  have : xs.any (fun b => keyOf k b = keyOf k p) = true := List.any_eq_true.2 ⟨p, hp, by simp⟩
  simp [this]

mutual

theorem merge_self (k : String) : ∀ (j : Json), keysNodup k j = true → mergeJson k j j = j
  | .null, _ => rfl
  | .bool _, _ => rfl
  | .num _, _ => rfl
  | .str _, _ => rfl
  | .arr xs, h => by
    obtain ⟨h1, h2⟩ := andT (show (nodupKeysJ k xs && keysNodupL k xs) = true from h)
    rw [mergeJson_arr, merge_selfElems k xs xs (fun b hb => hb) h1 h2, filter_selfKeys k xs,
      List.append_nil]
  | .obj fs, h => by
    obtain ⟨h1, h2⟩ := andT (show (nodupNames fs && keysNodupF k fs) = true from h)
    rw [mergeJson_obj, merge_selfFields k fs fs (fun p hp => hp) h1 h2, filter_selfNames fs,
      List.append_nil]
termination_by structural j => j

theorem merge_selfElems (k : String) :
    ∀ (l xs : List Json), (∀ b ∈ l, b ∈ xs) → nodupKeysJ k xs = true →
      keysNodupL k xs = true → mergeElems k l xs = l
  | [], _, _, _, _ => rfl
  | b :: rest, xs, hmem, hnd, hl => by
    have hb : b ∈ xs := hmem b (List.mem_cons_self _ _)
    rw [mergeElems_cons, findElem_nodup k xs hnd b hb]
    show mergeJson k b b :: mergeElems k rest xs = b :: rest
    rw [merge_self k b (keysNodupL_mem k xs hl b hb),
      merge_selfElems k rest xs (fun x hx => hmem x (List.mem_cons_of_mem _ hx)) hnd hl]
termination_by structural l => l

theorem merge_selfFields (k : String) :
    ∀ (l fs : List (String × Json)), (∀ p ∈ l, p ∈ fs) → nodupNames fs = true →
      keysNodupF k fs = true → mergeFields k l fs = l
  | [], _, _, _, _ => rfl
  | (n, v) :: rest, fs, hmem, hnd, hf => by
    have hv : (n, v) ∈ fs := hmem (n, v) (List.mem_cons_self _ _)
    rw [mergeFields_cons, findF_nodup n fs v hnd hv]
    show (n, mergeJson k v v) :: mergeFields k rest fs = (n, v) :: rest
    rw [merge_self k v (keysNodupF_mem k fs hf (n, v) hv),
      merge_selfFields k rest fs (fun p hp => hmem p (List.mem_cons_of_mem _ hp)) hnd hf]
termination_by structural l => l

end

/-- When the base and the patch carry the same identifier key and the
patch satisfies the uniqueness invariant, their merge carries it too. -/
theorem keyOf_merge (k : String) (b p : Json) (hk : keyOf k b = keyOf k p)
    (hp : keysNodup k p = true) : keyOf k (mergeJson k b p) = keyOf k p := by
  cases b <;> cases p <;> try rfl
  case obj.obj bs ps =>
    obtain ⟨hnd, hfv⟩ := andT (show (nodupNames ps && keysNodupF k ps) = true from hp)
    rw [mergeJson_obj]
    show (findF k (mergeFields k bs ps
        ++ ps.filter (fun q => !(bs.any (fun b => b.1 = q.1))))).getD .null = _
    rw [findF_append, findF_mergeFields]
    have hkb : (findF k bs).getD .null = (findF k ps).getD .null := hk
    rcases hb : findF k bs with _ | v
    · rcases hps : findF k ps with _ | pv
      · have : findF k (ps.filter (fun q => !(bs.any (fun b => b.1 = q.1)))) = none := by
          apply findF_eq_none_of
          intro q hq
          exact findF_none k ps hps q (List.mem_of_mem_filter hq)
        simp only [this]
        show (none : Option Json).getD .null = (findF k ps).getD .null
        rw [hps]
      · have hfil : findF k (ps.filter (fun q => !(bs.any (fun b => b.1 = q.1)))) = some pv := by
          rw [findF_filter k ps _ ?_, hps]
          intro q hq hq1
          have : ∀ r ∈ bs, r.1 ≠ q.1 := by
            rw [hq1]
            exact findF_none k bs hb
          have hany : bs.any (fun b => b.1 = q.1) = false := by
            rw [Bool.eq_false_iff]
            intro hcontra
            obtain ⟨r, hr, hr1⟩ := List.any_eq_true.1 hcontra
            exact this r hr (by simpa using hr1)
          simp [hany]
        simp only [hfil]
        show (some pv).getD .null = (findF k ps).getD .null
        rw [hps]
    · rcases hps : findF k ps with _ | pv
      · rw [hb, hps] at hkb
        show v = (findF k ps).getD .null
        rw [hps]
        exact hkb
      · rw [hb, hps] at hkb
        show mergeJson k v pv = (findF k ps).getD .null
        rw [hps]
        show mergeJson k v pv = pv
        have hv : v = pv := hkb
        subst hv
        exact merge_self k v (keysNodupF_mem k ps hfv (k, v) (findF_mem k ps v hps))

theorem mergeFields_append (k : String) (l1 l2 ps : List (String × Json)) :
    mergeFields k (l1 ++ l2) ps = mergeFields k l1 ps ++ mergeFields k l2 ps := by
  induction l1 with
  | nil => rfl
  | cons q rest ih =>
    obtain ⟨n, v⟩ := q
    rw [List.cons_append, mergeFields_cons, mergeFields_cons, ih, List.cons_append]

theorem mergeElems_append (k : String) (l1 l2 ps : List Json) :
    mergeElems k (l1 ++ l2) ps = mergeElems k l1 ps ++ mergeElems k l2 ps := by
  induction l1 with
  | nil => rfl
  | cons b rest ih =>
    rw [List.cons_append, mergeElems_cons, mergeElems_cons, ih, List.cons_append]

theorem mergeFields_any_name (k : String) (bs ps : List (String × Json)) (n : String) :
    (mergeFields k bs ps).any (fun b => b.1 = n) = bs.any (fun b => b.1 = n) := by
  induction bs with
  | nil => rfl
  | cons q rest ih =>
    obtain ⟨m, w⟩ := q
    rw [mergeFields_cons, List.any_cons, List.any_cons, ih]

theorem mergeElems_any_key (k : String) (bs ps : List Json) (hlv : keysNodupL k ps = true)
    (key : Json) :
    (mergeElems k bs ps).any (fun e => keyOf k e = key) = bs.any (fun b => keyOf k b = key) := by
  induction bs with
  | nil => rfl
  | cons b rest ih =>
    rw [mergeElems_cons]
    rcases hf : findElem k (keyOf k b) ps with _ | p0
    · show (b :: mergeElems k rest ps).any (fun e => keyOf k e = key) = _
      rw [List.any_cons, List.any_cons, ih]
    · obtain ⟨hk0, hmem0⟩ := findElem_spec k (keyOf k b) ps p0 hf
      have hke : keyOf k (mergeJson k b p0) = keyOf k b := by
        rw [keyOf_merge k b p0 hk0.symm (keysNodupL_mem k ps hlv p0 hmem0), hk0]
      show (mergeJson k b p0 :: mergeElems k rest ps).any (fun e => keyOf k e = key) = _
      rw [List.any_cons, List.any_cons, ih, hke]

theorem merge_absorb_default (k : String) (x y : Json) (hxy : mergeJson k x y = y)
    (h : keysNodup k y = true) :
    mergeJson k (mergeJson k x y) y = mergeJson k x y := by
  rw [hxy]
  exact merge_self k y h

mutual

/-- Re-merging the same patch into an already patched document changes
nothing, provided the patch carries no repeated identifier key (the
jsonmerge arrayMergeById precondition). -/
theorem merge_absorb (k : String) : ∀ (x y : Json), keysNodup k y = true →
    mergeJson k (mergeJson k x y) y = mergeJson k x y
  | .obj bs, .obj ps, h => by
    obtain ⟨hnd, hfv⟩ := andT (show (nodupNames ps && keysNodupF k ps) = true from h)
    rw [mergeJson_obj, mergeJson_obj, mergeFields_append, absorbFields k bs ps h,
      merge_selfFields k (ps.filter (fun q => !(bs.any (fun b => b.1 = q.1)))) ps
        (fun p hp => List.mem_of_mem_filter hp) hnd hfv]
    have hfil : ps.filter (fun q =>
        !((mergeFields k bs ps ++ ps.filter (fun r => !(bs.any (fun b => b.1 = r.1)))).any
            (fun b => b.1 = q.1))) = [] := by
      rw [List.filter_eq_nil_iff]
      intro q hq hcontra
      have hany : (mergeFields k bs ps
          ++ ps.filter (fun r => !(bs.any (fun b => b.1 = r.1)))).any
            (fun b => b.1 = q.1) = true := by
        rw [List.any_append]
        by_cases hb : bs.any (fun b => b.1 = q.1) = true
        · have h1 : (mergeFields k bs ps).any (fun b => b.1 = q.1) = true := by
            rw [mergeFields_any_name]
            exact hb
          simp [h1]
        · have hbf : bs.any (fun b => b.1 = q.1) = false := by
            cases hB : bs.any (fun b => b.1 = q.1)
            · rfl
            · exact absurd hB hb
          have hqf : q ∈ ps.filter (fun r => !(bs.any (fun b => b.1 = r.1))) :=
            List.mem_filter.2 ⟨hq, by simp [hbf]⟩
          have h2 : (ps.filter (fun r => !(bs.any (fun b => b.1 = r.1)))).any
              (fun b => b.1 = q.1) = true := List.any_eq_true.2 ⟨q, hqf, by simp⟩
          simp [h2]
      simp [hany] at hcontra
    rw [hfil, List.append_nil]
  | .arr bs, .arr ps, h => by
    obtain ⟨hndk, hlv⟩ := andT (show (nodupKeysJ k ps && keysNodupL k ps) = true from h)
    rw [mergeJson_arr, mergeJson_arr, mergeElems_append, absorbElems k bs ps h,
      merge_selfElems k (ps.filter (fun p => !(bs.any (fun b => keyOf k b = keyOf k p)))) ps
        (fun p hp => List.mem_of_mem_filter hp) hndk hlv]
    have hfil : ps.filter (fun p =>
        !((mergeElems k bs ps
            ++ ps.filter (fun r => !(bs.any (fun b => keyOf k b = keyOf k r)))).any
              (fun b => keyOf k b = keyOf k p))) = [] := by
      rw [List.filter_eq_nil_iff]
      intro q hq hcontra
      have hany : (mergeElems k bs ps
          ++ ps.filter (fun r => !(bs.any (fun b => keyOf k b = keyOf k r)))).any
            (fun b => keyOf k b = keyOf k q) = true := by
        rw [List.any_append]
        by_cases hb : bs.any (fun b => keyOf k b = keyOf k q) = true
        · have h1 : (mergeElems k bs ps).any (fun e => keyOf k e = keyOf k q) = true := by
            rw [mergeElems_any_key k bs ps hlv]
            exact hb
          simp [h1]
        · have hbf : bs.any (fun b => keyOf k b = keyOf k q) = false := by
            cases hB : bs.any (fun b => keyOf k b = keyOf k q)
            · rfl
            · exact absurd hB hb
          have hqf : q ∈ ps.filter (fun r => !(bs.any (fun b => keyOf k b = keyOf k r))) :=
            List.mem_filter.2 ⟨hq, by simp [hbf]⟩
          have h2 : (ps.filter (fun r => !(bs.any (fun b => keyOf k b = keyOf k r)))).any
              (fun b => keyOf k b = keyOf k q) = true := List.any_eq_true.2 ⟨q, hqf, by simp⟩
          simp [h2]
      simp [hany] at hcontra
    rw [hfil, List.append_nil]
  | .null, y, h => merge_absorb_default k .null y (by cases y <;> rfl) h
  | .bool b, y, h => merge_absorb_default k (.bool b) y (by cases y <;> rfl) h
  | .num n, y, h => merge_absorb_default k (.num n) y (by cases y <;> rfl) h
  | .str s, y, h => merge_absorb_default k (.str s) y (by cases y <;> rfl) h
  | .arr bs, .null, h => merge_absorb_default k (.arr bs) .null rfl h
  | .arr bs, .bool b, h => merge_absorb_default k (.arr bs) (.bool b) rfl h
  | .arr bs, .num n, h => merge_absorb_default k (.arr bs) (.num n) rfl h
  | .arr bs, .str s, h => merge_absorb_default k (.arr bs) (.str s) rfl h
  | .arr bs, .obj ps, h => merge_absorb_default k (.arr bs) (.obj ps) rfl h
  | .obj bs, .null, h => merge_absorb_default k (.obj bs) .null rfl h
  | .obj bs, .bool b, h => merge_absorb_default k (.obj bs) (.bool b) rfl h
  | .obj bs, .num n, h => merge_absorb_default k (.obj bs) (.num n) rfl h
  | .obj bs, .str s, h => merge_absorb_default k (.obj bs) (.str s) rfl h
  | .obj bs, .arr ps, h => merge_absorb_default k (.obj bs) (.arr ps) rfl h
termination_by structural x => x

theorem absorbFields (k : String) :
    ∀ (l ps : List (String × Json)), keysNodup k (.obj ps) = true →
      mergeFields k (mergeFields k l ps) ps = mergeFields k l ps
  | [], _, _ => rfl
  | (n, v) :: rest, ps, h => by
    obtain ⟨hnd, hfv⟩ := andT (show (nodupNames ps && keysNodupF k ps) = true from h)
    rw [mergeFields_cons]
    rcases hf : findF n ps with _ | pv
    · show mergeFields k ((n, v) :: mergeFields k rest ps) ps
          = (n, v) :: mergeFields k rest ps
      rw [mergeFields_cons, hf]
      show (n, v) :: mergeFields k (mergeFields k rest ps) ps
          = (n, v) :: mergeFields k rest ps
      rw [absorbFields k rest ps h]
    · show mergeFields k ((n, mergeJson k v pv) :: mergeFields k rest ps) ps
          = (n, mergeJson k v pv) :: mergeFields k rest ps
      rw [mergeFields_cons, hf]
      show (n, mergeJson k (mergeJson k v pv) pv) :: mergeFields k (mergeFields k rest ps) ps
          = (n, mergeJson k v pv) :: mergeFields k rest ps
      rw [merge_absorb k v pv (keysNodupF_mem k ps hfv (n, pv) (findF_mem n ps pv hf)),
        absorbFields k rest ps h]
termination_by structural l => l

theorem absorbElems (k : String) :
    ∀ (l ps : List Json), keysNodup k (.arr ps) = true →
      mergeElems k (mergeElems k l ps) ps = mergeElems k l ps
  | [], _, _ => rfl
  | b :: rest, ps, h => by
    obtain ⟨hndk, hlv⟩ := andT (show (nodupKeysJ k ps && keysNodupL k ps) = true from h)
    rw [mergeElems_cons]
    rcases hf : findElem k (keyOf k b) ps with _ | p0
    · show mergeElems k (b :: mergeElems k rest ps) ps = b :: mergeElems k rest ps
      rw [mergeElems_cons, hf]
      show b :: mergeElems k (mergeElems k rest ps) ps = b :: mergeElems k rest ps
      rw [absorbElems k rest ps h]
    · obtain ⟨hk0, hmem0⟩ := findElem_spec k (keyOf k b) ps p0 hf
      have hp0 : keysNodup k p0 = true := keysNodupL_mem k ps hlv p0 hmem0
      have hke : keyOf k (mergeJson k b p0) = keyOf k b := by
        rw [keyOf_merge k b p0 hk0.symm hp0, hk0]
      show mergeElems k (mergeJson k b p0 :: mergeElems k rest ps) ps
          = mergeJson k b p0 :: mergeElems k rest ps
      rw [mergeElems_cons, hke, hf]
      show mergeJson k (mergeJson k b p0) p0 :: mergeElems k (mergeElems k rest ps) ps
          = mergeJson k b p0 :: mergeElems k rest ps
      rw [merge_absorb k b p0 hp0, absorbElems k rest ps h]
termination_by structural l => l

end

/-- The top-level study id survives the merge: when patch and target
agree on a field, the merged document carries the patch's value for it. -/
theorem getField_merge (k n : String) (target patch : Json)
    (h : getField patch n = getField target n)
    (hnd : keysNodup k patch = true) :
    getField (mergeJson k target patch) n = getField patch n := by
  cases target <;> cases patch <;> try rfl
  case obj.obj tfs pfs =>
    obtain ⟨hndn, hfv⟩ := andT (show (nodupNames pfs && keysNodupF k pfs) = true from hnd)
    show findF n (mergeFields k tfs pfs
        ++ pfs.filter (fun q => !(tfs.any (fun b => b.1 = q.1)))) = findF n pfs
    rw [findF_append, findF_mergeFields]
    have h' : findF n pfs = findF n tfs := h
    rcases ht : findF n tfs with _ | tv
    · rw [ht] at h'
      have hfil : findF n (pfs.filter (fun q => !(tfs.any (fun b => b.1 = q.1)))) = none := by
        apply findF_eq_none_of
        intro q hq
        exact findF_none n pfs h' q (List.mem_of_mem_filter hq)
      simp only [ht, hfil, h']
    · rw [ht] at h'
      simp only [ht, h']
      show some (mergeJson k tv tv) = some tv
      rw [merge_self k tv (keysNodupF_mem k pfs hfv (n, tv) (findF_mem n pfs tv h'))]

/-- Claim C7: `merge_clinical_trial_metadata` raises whenever patch and
target differ in the top-level lead_organization_study_id.  The first
conjunct holds for every merger, so the identity failure is decided
before any structural merge is consulted; the second and third show the
check sits after the two schema validations (an invalid input reports the
validation failure instead).  The embedding is a pure function of the two
inputs, matching the source, which performs no mutation before the raise. -/
theorem mergeCTM_identity_check :
    (∀ (valid : Json → Bool) (merger : Json → Json → Json) (patch target : Json),
      valid target = true → valid patch = true →
      getField patch "lead_organization_study_id"
        ≠ getField target "lead_organization_study_id" →
      mergeCTM valid merger patch target = .error "RuntimeError")
    ∧ (∀ (valid : Json → Bool) (merger : Json → Json → Json) (patch target : Json),
      valid target = false →
      mergeCTM valid merger patch target = .error "ValidationError target")
    ∧ (∀ (valid : Json → Bool) (merger : Json → Json → Json) (patch target : Json),
      valid target = true → valid patch = false →
      mergeCTM valid merger patch target = .error "ValidationError patch") := by
  refine ⟨?_, ?_, ?_⟩
  · intro valid merger patch target hvt hvp hne
    simp [mergeCTM, hvt, hvp, hne]
  · intro valid merger patch target hvt
    simp [mergeCTM, hvt]
  · intro valid merger patch target hvt hvp
    simp [mergeCTM, hvt, hvp]

theorem mergeCTM_identity_check_witness :
    (mergeCTM (fun _ => true) (fun t _ => t)
        (.obj [("lead_organization_study_id", .str "A")])
        (.obj [("lead_organization_study_id", .str "B")]) = .error "RuntimeError")
    ∧ (mergeCTM (fun _ => false) (fun t _ => t) (.obj []) (.obj [])
        = .error "ValidationError target")
    ∧ (mergeCTM (fun j => j = .obj []) (fun t _ => t) (.obj [("x", .null)]) (.obj [])
        = .error "ValidationError patch") :=
  ⟨mergeCTM_identity_check.1 (fun _ => true) (fun t _ => t)
      (.obj [("lead_organization_study_id", .str "A")])
      (.obj [("lead_organization_study_id", .str "B")]) rfl rfl (by decide),
   mergeCTM_identity_check.2.1 (fun _ => false) (fun t _ => t) (.obj []) (.obj []) rfl,
   mergeCTM_identity_check.2.2 (fun j => j = .obj []) (fun t _ => t)
      (.obj [("x", .null)]) (.obj []) (by decide) (by decide)⟩

/-- Claim C8: re-merging is idempotent.  If merging `patch` into `target`
succeeds with result `m`, then merging the same `patch` into `m` returns
`m` again — identifier-keyed arrays gain no duplicate elements for
repeated identical keys.  The merger is the spec-modelled jsonmerge
service for an arbitrary schema-declared key `k`; the hypothesis
`keysNodup` is jsonmerge's arrayMergeById precondition that no document
repeats an identifier key inside one array (jsonmerge raises on such
input, so a successful merge never sees it). -/
theorem mergeCTM_idempotent (valid : Json → Bool) (k : String) (patch target m : Json)
    (hnd : keysNodup k patch = true)
    (h : mergeCTM valid (mergeJson k) patch target = .ok m) :
    mergeCTM valid (mergeJson k) patch m = .ok m := by
  by_cases hvt : valid target = true
  case neg => simp [mergeCTM, hvt] at h
  case pos =>
  by_cases hvp : valid patch = true
  case neg => simp [mergeCTM, hvt, hvp] at h
  case pos =>
  by_cases hid : getField patch "lead_organization_study_id"
      = getField target "lead_organization_study_id"
  case neg => simp [mergeCTM, hvt, hvp, hid] at h
  case pos =>
  by_cases hvm : valid (mergeJson k target patch) = true
  case neg => simp [mergeCTM, hvt, hvp, hid, hvm] at h
  case pos =>
    have hm : m = mergeJson k target patch := by
      simp [mergeCTM, hvt, hvp, hid, hvm] at h
      exact h.symm
    subst hm
    have hid2 : getField (mergeJson k target patch) "lead_organization_study_id"
        = getField patch "lead_organization_study_id" :=
      getField_merge k "lead_organization_study_id" target patch hid hnd
    have habs : mergeJson k (mergeJson k target patch) patch = mergeJson k target patch :=
      merge_absorb k target patch hnd
    simp [mergeCTM, hvm, hvp, hid2, habs]

theorem mergeCTM_idempotent_witness :
    keysNodup "id" (.obj [("lead_organization_study_id", .str "T"),
      ("participants", .arr [.obj [("id", .str "1"), ("v", .num 2)]])]) = true
    ∧ mergeCTM (fun _ => true) (mergeJson "id")
        (.obj [("lead_organization_study_id", .str "T"),
          ("participants", .arr [.obj [("id", .str "1"), ("v", .num 2)]])])
        (.obj [("lead_organization_study_id", .str "T"),
          ("participants", .arr [.obj [("id", .str "1"), ("v", .num 1)]])])
      = .ok (.obj [("lead_organization_study_id", .str "T"),
          ("participants", .arr [.obj [("id", .str "1"), ("v", .num 2)]])])
    ∧ mergeCTM (fun _ => true) (mergeJson "id")
        (.obj [("lead_organization_study_id", .str "T"),
          ("participants", .arr [.obj [("id", .str "1"), ("v", .num 2)]])])
        (.obj [("lead_organization_study_id", .str "T"),
          ("participants", .arr [.obj [("id", .str "1"), ("v", .num 2)]])])
      = .ok (.obj [("lead_organization_study_id", .str "T"),
          ("participants", .arr [.obj [("id", .str "1"), ("v", .num 2)]])]) :=
  ⟨by decide, rfl,
   mergeCTM_idempotent (fun _ => true) "id"
     (.obj [("lead_organization_study_id", .str "T"),
       ("participants", .arr [.obj [("id", .str "1"), ("v", .num 2)]])])
     (.obj [("lead_organization_study_id", .str "T"),
       ("participants", .arr [.obj [("id", .str "1"), ("v", .num 1)]])])
     (.obj [("lead_organization_study_id", .str "T"),
       ("participants", .arr [.obj [("id", .str "1"), ("v", .num 2)]])])
     (by decide) rfl⟩

/-! ## The assembly driver `prismify` and `_process_property` -/

mutual

/-- Lines 181 to 206 of prism.py, `_get_recursively`: all values found at
the given field name, searching dicts and lists of dicts depth-first; a
matching key's value is collected without recursing into it.  The arr
case serves the nested dispatch (a list value's dict items are searched,
other items skipped); top-level callers always pass dicts. -/
def getRecursively (field : String) : Json → List Json
  | .obj fs => getRecF field fs
  | .arr items => getRecA field items
  | _ => []
termination_by structural j => j

/-- The dict items loop of `_get_recursively`: a matching key contributes
its value, any other value is searched recursively (scalars contribute
nothing). -/
def getRecF (field : String) : List (String × Json) → List Json
  | [] => []
  | (key, value) :: rest =>
    (if key = field then [value] else getRecursively field value) ++ getRecF field rest
termination_by structural l => l

/-- The list items loop of `_get_recursively`: only dict items are
searched. -/
def getRecA (field : String) : List Json → List Json
  | [] => []
  | item :: rest =>
    (match item with
     | .obj _ => getRecursively field item
     | _ => []) ++ getRecA field rest
termination_by structural l => l

end

/-- A field definition from the template's key lookup: the merge pointer,
the artifact flag, and the external coercion function (an external
collaborator, kept abstract as a Lean function). -/
structure FieldDef where
  merge_pointer : String
  is_artifact : Bool
  coerce : Json → Json

/-- Template key lookup, `key_lu[key.lower()]`. -/
def findFD (n : String) : List (String × FieldDef) → Option FieldDef
  | [] => none
  | (m, fd) :: rest => if m = n then some fd else findFD n rest

/-- One collected local-file entry (lines 278 to 286 of prism.py): the
template key, the raw value as local path, the derived storage key, and
the placeholder value written at the upload_placeholder pointer.  The
field_def member of the Python dict is dropped from the record — it is
the looked-up definition itself. -/
structure FileEntry where
  template_key : String
  local_path : Json
  gs_key : String
  upload_placeholder : Json

/-- The identifier path the context object occupies inside the root after
it was attached at the given pointer: the pointer's parts, with a
trailing append segment replaced by the index the append landed on.
Models the Python aliasing in which later calls receive the attached
object itself while the pointer string still ends in the dash. -/
def dataObjPath (pointer : String) (root : Json) : List String :=
  let parts := ptrParts pointer
  if parts.getLast? = some "-" then
    let dir := parts.dropLast
    match resolveJ root dir with
    | .ok (.arr l) => dir ++ [toString (l.length - 1)]
    | _ => dir ++ ["-"]
  else parts

/-- Lines 209 to 286 of prism.py, `_process_property`: look the key up
(case-insensitively; a miss is a KeyError), coerce the raw value, extend
the pointer with upload_placeholder for artifact fields, set the value
through `_set_val` relative to the context at `ctxPath` inside `root`,
and for artifact fields derive the storage key from the three identifiers
found in the context object (a missing identifier is an IndexError on the
empty search result; identifiers are strings in the data model).  Line
275 interpolates the literal text assay_hint into the storage key.
Returns the updated root and the optional file entry. -/
def processProperty (keyLu : List (String × FieldDef)) (key : String) (rawVal : Json)
    (root : Json) (ctxPath : List String) (ctxPtrStr : String) :
    Except String (Json × Option FileEntry) :=
  match findFD (lowerStr key) keyLu with
  | none => .error "KeyError"
  | some fd =>
    match setValG
        (if fd.is_artifact then fd.merge_pointer ++ "/upload_placeholder"
         else fd.merge_pointer)
        (fd.coerce rawVal) root ctxPath (some ctxPtrStr) with
    | .error e => .error e
    | .ok root2 =>
      if fd.is_artifact then
        match resolveJ root2 ctxPath with
        | .error e => .error e
        | .ok dataObj =>
          match getRecursively "cimac_participant_id" dataObj,
                getRecursively "cimac_sample_id" dataObj,
                getRecursively "cimac_aliquot_id" dataObj with
          | .str cp :: _, .str cs :: _, .str ca :: _ =>
            let fieldName :=
              (((splitChar '/' fd.merge_pointer.toList).map List.asString).getLastD "")
            let gsKey := "/" ++ cp ++ "/" ++ cs ++ "/" ++ ca ++ "/assay_hint/" ++ fieldName
            .ok (root2, some ⟨key, rawVal, gsKey, fd.coerce rawVal⟩)
          | _, _, _ => .error "IndexError"
      else .ok (root2, none)

/-- A worksheet as handed over by the external spreadsheet reader and
template: the worksheet name, the two configured pointers, the header
row, the data rows (cell values already read), and the preamble rows. -/
structure Worksheet where
  name : String
  preamble_pointer : String
  data_pointer : String
  headers : List String
  data_rows : List (List Json)
  preamble_rows : List (String × Json)

/-- The inner cell loop: run each key-value pair through
`_process_property`, threading the mutated root and collecting file
entries. -/
def processRow (keyLu : List (String × FieldDef)) :
    List (String × Json) → Json → List String → String →
    Except String (Json × List FileEntry)
  | [], root, _, _ => .ok (root, [])
  | (key, rawVal) :: rest, root, ctxPath, ctxPtrStr =>
    match processProperty keyLu key rawVal root ctxPath ctxPtrStr with
    | .error e => .error e
    | .ok (root2, file?) =>
      match processRow keyLu rest root2 ctxPath ctxPtrStr with
      | .error e => .error e
      | .ok (root3, files) => .ok (root3, file?.toList ++ files)

/-- Python dict assignment of the bookkeeping key (line 362 and 364). -/
def setThis (j : Json) (v : String) : Json :=
  match j with
  | .obj fs => .obj (setF fs "_this" (.str v))
  | other => other

/-- Lines 359 to 375 of prism.py, the data rows loop: per row, deep-copy
the accumulated preamble object (a pure value here), restamp its marker,
attach a fresh data object at the data pointer (root and context pointer
left to their defaults), process every header-cell pair against the data
object inside the copy, and merge the copy into the accumulated preamble
object through the external preamble merger (the spec-modelled
`mergeJson` with the schema-declared key `k`). -/
def processDataRows (keyLu : List (String × FieldDef)) (k : String)
    (wsName dataPointer : String) (headers : List String) :
    List (List Json) → Nat → Json → Except String (Json × List FileEntry)
  | [], _, preambleObj => .ok (preambleObj, [])
  | row :: rest, i, preambleObj =>
    match setValG dataPointer (.obj [("_this", .str ("data_obj_" ++ toString i))])
        (setThis preambleObj ("copy_of_preamble_obj_" ++ wsName ++ "_" ++ toString i))
        [] none with
    | .error e => .error e
    | .ok copy2 =>
      match processRow keyLu (headers.zip row) copy2 (dataObjPath dataPointer copy2)
          dataPointer with
      | .error e => .error e
      | .ok (copy3, files) =>
        match processDataRows keyLu k wsName dataPointer headers rest (i + 1)
            (mergeJson k preambleObj copy3) with
        | .error e => .error e
        | .ok (pf, files2) => .ok (pf, files ++ files2)

/-- Lines 340 to 386 of prism.py, one worksheet: build the preamble
object through the data rows, attach it into the root at the preamble
pointer (root and context pointer left to their defaults), then run the
preamble rows against the attached object. -/
def processWorksheet (keyLu : List (String × FieldDef)) (k : String) (root : Json)
    (ws : Worksheet) : Except String (Json × List FileEntry) :=
  match processDataRows keyLu k ws.name ws.data_pointer ws.headers ws.data_rows 0
      (.obj [("_this", .str ("preamble_obj_" ++ ws.name))]) with
  | .error e => .error e
  | .ok (preambleF, files1) =>
    match setValG ws.preamble_pointer preambleF root [] none with
    | .error e => .error e
    | .ok root2 =>
      match processRow keyLu ws.preamble_rows root2
          (dataObjPath ws.preamble_pointer root2) ws.preamble_pointer with
      | .error e => .error e
      | .ok (root3, files2) => .ok (root3, files1 ++ files2)

/-- The worksheet fold of `prismify`. -/
def processWorksheets (keyLu : List (String × FieldDef)) (k : String) :
    List Worksheet → Json → Except String (Json × List FileEntry)
  | [], root => .ok (root, [])
  | ws :: rest, root =>
    match processWorksheet keyLu k root ws with
    | .error e => .error e
    | .ok (root2, files) =>
      match processWorksheets keyLu k rest root2 with
      | .error e => .error e
      | .ok (root3, files2) => .ok (root3, files ++ files2)

/-- Lines 288 to 393 of prism.py, `prismify`, with the external
collaborators abstracted: the spreadsheet reader and template are already
materialized as `worksheets` and `keyLu`, schema loading is a no-op here
(the root merger built on line 329 is never used by the source), and
`templateValid` stands for the `xslx.validate` call.  Only the wes assay
hint is supported.  The root starts as the dict holding the bookkeeping
entry `_this` mapped to `root`. -/
def prismify (assayHint : String) (keyLu : List (String × FieldDef)) (k : String)
    (worksheets : List Worksheet) (templateValid : Bool) :
    Except String (Json × List FileEntry) :=
  if assayHint = "wes" then
    if templateValid then
      processWorksheets keyLu k worksheets (.obj [("_this", .str "root")])
    else .error "ValidationError"
  else .error "NotImplementedError"

theorem setF_get (fs : List (String × Json)) (n : String) (v : Json) :
    findF n (setF fs n v) = some v := by
  induction fs with
  | nil => simp [setF, findF]
  | cons q rest ih =>
    obtain ⟨m, w⟩ := q
    by_cases hm : m = n
    · subst hm
      simp [setF, findF]
    · simp only [setF, if_neg hm, findF]
      exact ih

theorem setF_other (fs : List (String × Json)) (m n : String) (v : Json) (h : m ≠ n) :
    findF m (setF fs n v) = findF m fs := by
  induction fs with
  | nil =>
    simp only [setF, findF]
    rw [if_neg (fun e => h e.symm)]
  | cons q rest ih =>
    obtain ⟨a, w⟩ := q
    by_cases ha : a = n
    · subst ha
      simp only [setF, if_pos rfl, findF]
      rw [if_neg (fun e => h e.symm), if_neg (fun e => h e.symm)]
    · simp only [setF, if_neg ha, findF]
      by_cases ham : a = m
      · rw [if_pos ham, if_pos ham]
      · rw [if_neg ham, if_neg ham]
        exact ih

theorem setF_isSome (fs : List (String × Json)) (f n : String) (v : Json)
    (h : (findF f fs).isSome = true) : (findF f (setF fs n v)).isSome = true := by
  by_cases he : f = n
  · subst he
    rw [setF_get]
    rfl
  · rw [setF_other fs f n v he]
    exact h

theorem getField_isSome_obj (j : Json) (f : String)
    (h : (getField j f).isSome = true) : ∃ fs, j = .obj fs := by
  cases j <;> simp [getField] at h ⊢

/-- A `setParts` write into a dict yields a dict in which every field
present before is still present, and every field other than the first
pointer segment keeps its old value. -/
theorem setParts_obj_result (val : Json) (parts : List String)
    (fs : List (String × Json)) (j : Json)
    (h : setParts val parts (.obj fs) = .ok j) :
    ∃ fs', j = .obj fs'
      ∧ (∀ f, (findF f fs).isSome = true → (findF f fs').isSome = true)
      ∧ (∀ f, parts.head? ≠ some f → findF f fs' = findF f fs) := by
  match parts with
  | [] => simp [setParts] at h
  | [last] =>
    simp only [setParts, setLast] at h
    split at h
    · cases h
    · cases h
      refine ⟨setF fs last val, rfl, ?_, ?_⟩
      · intro f hf
        exact setF_isSome fs f last val hf
      · intro f hf
        have hne : f ≠ last := by
          intro e
          subst e
          exact hf rfl
        exact setF_other fs f last val hne
  | p :: next :: rest =>
    simp only [setParts] at h
    split at h
    · rename_i sub hw
      cases hc : setParts val (next :: rest) sub with
      | error e =>
        rw [hc] at h
        simp [Except.map] at h
      | ok c =>
        rw [hc] at h
        simp only [Except.map] at h
        cases h
        refine ⟨setF fs p c, rfl, ?_, ?_⟩
        · intro f hf
          exact setF_isSome fs f p c hf
        · intro f hf
          have hne : f ≠ p := by
            intro e
            subst e
            exact hf rfl
          exact setF_other fs f p c hne
    · rename_i hw
      split at h
      · simp at h
      · cases hc : setParts val (next :: rest) (vivify next) with
        | error e =>
          rw [hc] at h
          simp [Except.map] at h
        | ok c =>
          rw [hc] at h
          simp only [Except.map] at h
          cases h
          refine ⟨fs ++ [(p, c)], rfl, ?_, ?_⟩
          · intro f hf
            rw [findF_append]
            rcases hfw : findF f fs with _ | w
            · rw [hfw] at hf; cases hf
            · rfl
          · intro f hf
            have hne : f ≠ p := by
              intro e
              subst e
              exact hf rfl
            rw [findF_append]
            rcases hfw : findF f fs with _ | w
            · simp only [findF]
              rw [if_neg (fun e => hne e.symm)]
            · rfl

theorem getElem?_set_self' (l : List Json) (i : Nat) (a : Json) (h : i < l.length) :
    (l.set i a)[i]? = some a := by
  induction l generalizing i with
  | nil => cases h
  | cons x xs ih =>
    cases i with
    | zero => simp [List.set]
    | succ n =>
      simp only [List.set, List.getElem?_cons_succ]
      exact ih n (by simpa using h)

theorem getElem?_append_len (l : List Json) (a : Json) : (l ++ [a])[l.length]? = some a := by
  induction l with
  | nil => simp
  | cons x xs ih =>
    simp only [List.cons_append, List.length_cons, List.getElem?_cons_succ]
    exact ih

theorem lt_of_getElem?_some (l : List Json) (i : Nat) (v : Json) (h : l[i]? = some v) :
    i < l.length := by
  by_contra hc
  rw [List.getElem?_len_le (by omega)] at h
  cases h

theorem walk_replaceAt (doc : Json) (p : String) (sub c : Json)
    (h : walkJ doc p = some sub) : walkJ (replaceAt doc p c) p = some c := by
  cases doc <;> simp only [walkJ, replaceAt] at h ⊢
  case obj fs => exact setF_get fs p c
  case arr l =>
    split at h
    · cases h
    · rename_i hdash
      rcases hp : idxOf p with _ | i
      · rw [hp] at h; cases h
      · rw [hp] at h
        have hi : i < l.length := lt_of_getElem?_some l i sub h
        simp only [hp, walkJ, if_neg hdash]
        rw [getElem?_set_self' l i c hi]
  all_goals cases h

/-- Round trip: resolving the written pointer after a successful
`setParts` (with no append segment) returns the written value. -/
theorem setParts_resolve (val : Json) :
    ∀ (parts : List String) (doc doc' : Json), "-" ∉ parts →
      setParts val parts doc = .ok doc' → resolveJ doc' parts = .ok val := by
  intro parts
  induction parts with
  | nil => intro doc doc' _ h; simp [setParts] at h
  | cons p rest ih =>
    intro doc doc' hdash h
    have hp : p ≠ "-" := fun e => hdash (e ▸ List.mem_cons_self _ _)
    have hdrest : "-" ∉ rest := fun hm => hdash (List.mem_cons_of_mem _ hm)
    cases rest with
    | nil =>
      cases doc <;> simp only [setParts, setLast] at h
      case arr l =>
        rw [if_neg hp] at h
        split at h
        · rename_i i hi
          by_cases hlt : i < l.length
          · rw [if_pos hlt] at h
            cases h
            simp only [resolveJ, walkJ, if_neg hp, hi]
            rw [getElem?_set_self' l i val hlt]
          · rw [if_neg hlt] at h
            by_cases heq : i = l.length
            · rw [if_pos heq] at h
              cases h
              simp only [resolveJ, walkJ, if_neg hp, hi, heq]
              rw [getElem?_append_len]
            · rw [if_neg heq] at h
              cases h
        · split at h <;> simp at h
      case obj fs =>
        rw [if_neg hp] at h
        cases h
        simp only [resolveJ, walkJ]
        rw [setF_get]
      all_goals cases h
    | cons next rs =>
      simp only [setParts] at h
      split at h
      · rename_i sub hw
        cases hc : setParts val (next :: rs) sub with
        | error e => rw [hc] at h; simp [Except.map] at h
        | ok c =>
          rw [hc] at h
          simp only [Except.map] at h
          cases h
          simp only [resolveJ, walk_replaceAt doc p sub c hw]
          exact ih sub c hdrest hc
      · rename_i hw
        cases doc <;> simp only at h
        case obj fs =>
          split at h
          · simp at h
          · cases hc : setParts val (next :: rs) (vivify next) with
            | error e => rw [hc] at h; simp [Except.map] at h
            | ok c =>
              rw [hc] at h
              simp only [Except.map] at h
              cases h
              have hmiss : findF p fs = none := hw
              have hwalk : walkJ (.obj (fs ++ [(p, c)])) p = some c := by
                show findF p (fs ++ [(p, c)]) = some c
                rw [findF_append, hmiss]
                simp [findF]
              simp only [resolveJ, hwalk]
              exact ih (vivify next) c hdrest hc
        case arr l =>
          split at h
          · simp at h
          · split at h
            · rename_i i hi
              by_cases heq : i = l.length
              · rw [if_pos heq] at h
                cases hc : setParts val (next :: rs) (vivify next) with
                | error e => rw [hc] at h; simp [Except.map] at h
                | ok c =>
                  rw [hc] at h
                  simp only [Except.map] at h
                  cases h
                  have hwalk : walkJ (.arr (l ++ [c])) p = some c := by
                    simp only [walkJ, if_neg hp, hi, heq]
                    rw [getElem?_append_len]
                  simp only [resolveJ, hwalk]
                  exact ih (vivify next) c hdrest hc
              · rw [if_neg heq] at h
                cases h
            · split at h <;> simp at h
        all_goals simp at h

/-- Replacing the subtree at a resolvable path makes the path resolve to
the replacement. -/
theorem resolve_replaceSubtree :
    ∀ (path : List String) (doc sub c : Json), resolveJ doc path = .ok sub →
      resolveJ (replaceSubtree doc path c) path = .ok c := by
  intro path
  induction path with
  | nil => intro doc sub c _; rfl
  | cons p ps ih =>
    intro doc sub c h
    simp only [resolveJ] at h
    split at h
    · rename_i w hw
      simp only [replaceSubtree, hw, resolveJ,
        walk_replaceAt doc p w (replaceSubtree w ps c) hw]
      exact ih w sub c h
    · cases h

/-- Replacing a subtree below a path whose first segment differs from a
field name leaves that top-level field unchanged. -/
theorem replaceSubtree_getField (doc c : Json) (h0 : String) (t : List String) (f : String)
    (hne : h0 ≠ f) : getField (replaceSubtree doc (h0 :: t) c) f = getField doc f := by
  simp only [replaceSubtree]
  cases hw : walkJ doc h0 with
  | none => rfl
  | some sub =>
    cases doc
    case obj fs =>
      simp only [replaceAt, getField]
      exact setF_other fs f h0 _ (fun e => hne e.symm)
    case arr l =>
      simp only [replaceAt]
      rcases idxOf h0 with _ | i <;> rfl
    all_goals rfl

/-- Replacing a subtree below a nonempty path keeps every top-level field
present. -/
theorem replaceSubtree_isSome (doc c : Json) (h0 : String) (t : List String) (f : String)
    (hf : (getField doc f).isSome = true) :
    (getField (replaceSubtree doc (h0 :: t) c) f).isSome = true := by
  simp only [replaceSubtree]
  cases hw : walkJ doc h0 with
  | none => exact hf
  | some sub =>
    obtain ⟨fs, rfl⟩ := getField_isSome_obj doc f hf
    simp only [replaceAt, getField]
    exact setF_isSome fs f h0 _ hf

/-! ## Bookkeeping-marker lemmas (claim C9) -/

theorem splitChar_ne_nil (c : Char) (l : List Char) : splitChar c l ≠ [] := by
  induction l with
  | nil => simp [splitChar]
  | cons x rest ih =>
    by_cases hx : x = c
    · simp [splitChar, hx]
    · simp only [splitChar, if_neg hx]
      cases hs : splitChar c rest with
      | nil => simp
      | cons g gs => simp

theorem ptrParts_ne_nil (s : String) (h : s.toList.head? = some '/') : ptrParts s ≠ [] := by
  unfold ptrParts
  cases hs : s.toList with
  | nil => rw [hs] at h; cases h
  | cons c cs =>
    rw [hs] at h
    have hc : c = '/' := by simpa using h
    subst hc
    simp only [splitChar, if_pos rfl, List.drop_succ_cons, List.drop_zero]
    intro hmap
    exact splitChar_ne_nil '/' cs (List.map_eq_nil_iff.mp hmap)

theorem ptrParts_cons (s : String) (h : s.toList.head? = some '/') :
    ∃ h0 t, ptrParts s = h0 :: t := by
  cases hp : ptrParts s with
  | nil => exact absurd hp (ptrParts_ne_nil s h)
  | cons a l => exact ⟨a, l, rfl⟩

theorem head_append_slash (s t : String) (h : s.toList.head? = some '/') :
    (s ++ t).toList.head? = some '/' := by
  have hd : (s ++ t).toList = s.toList ++ t.toList := String.data_append s t
  cases hs : s.toList with
  | nil => rw [hs] at h; cases h
  | cons c cs =>
    rw [hd, hs]
    rw [hs] at h
    simpa using h

theorem getLast?_mem_str (l : List String) (x : String) (h : l.getLast? = some x) : x ∈ l := by
  induction l with
  | nil => cases h
  | cons a t ih =>
    cases t with
    | nil => simp_all [List.getLast?]
    | cons b u =>
      rw [List.getLast?_cons_cons] at h
      exact List.mem_cons_of_mem _ (ih h)

theorem findFD_mem (n : String) (l : List (String × FieldDef)) (fd : FieldDef)
    (h : findFD n l = some fd) : ∃ m, (m, fd) ∈ l := by
  induction l with
  | nil => cases h
  | cons q rest ih =>
    obtain ⟨m, g⟩ := q
    by_cases hm : m = n
    · rw [findFD, if_pos hm] at h
      cases h
      exact ⟨m, List.mem_cons_self _ _⟩
    · rw [findFD, if_neg hm] at h
      obtain ⟨m2, hmem⟩ := ih h
      exact ⟨m2, List.mem_cons_of_mem _ hmem⟩

theorem setValG_none_ok (P : String) (v root r2 : Json)
    (h : setValG P v root [] none = .ok r2) :
    P.toList.head? = some '/' ∧ setParts v (ptrParts P) root = .ok r2 := by
  by_cases habs : P.toList.head? = some '/'
  · refine ⟨habs, ?_⟩
    rw [setValG, if_pos habs] at h
    have h2 : (setParts v (ptrParts P) root).map (replaceSubtree root []) = Except.ok r2 := h
    cases hc : setParts v (ptrParts P) root with
    | error e => rw [hc] at h2; exact Except.noConfusion h2
    | ok c =>
      rw [hc] at h2
      simp only [Except.map, replaceSubtree, Except.ok.injEq] at h2
      rw [h2]
  · exfalso
    rw [setValG, if_neg habs] at h
    split at h
    · exact Except.noConfusion h
    · split at h
      · exact Except.noConfusion h
      · exact Except.noConfusion h

theorem setValG_abs_ok (P : String) (v root r2 : Json) (cp : Option String)
    (h0 : String) (t : List String) (habs : P.toList.head? = some '/')
    (h : setValG P v root (h0 :: t) cp = .ok r2) :
    ∃ ctx c, resolveJ root (h0 :: t) = .ok ctx ∧ setParts v (ptrParts P) ctx = .ok c ∧
      r2 = replaceSubtree root (h0 :: t) c := by
  rw [setValG, if_pos habs] at h
  rcases hr : resolveJ root (h0 :: t) with e | ctx
  · rw [hr] at h; exact Except.noConfusion h
  · rw [hr] at h
    have h2 : Except.map (replaceSubtree root (h0 :: t)) (setParts v (ptrParts P) ctx)
        = Except.ok r2 := h
    cases hc : setParts v (ptrParts P) ctx with
    | error e => rw [hc] at h2; exact Except.noConfusion h2
    | ok c =>
      rw [hc] at h2
      simp only [Except.map, Except.ok.injEq] at h2
      exact ⟨ctx, c, rfl, hc, h2.symm⟩

theorem getField_mergeJson_isSome (k f : String) (bs ps : List (String × Json))
    (hb : (findF f bs).isSome = true) :
    (getField (mergeJson k (.obj bs) (.obj ps)) f).isSome = true := by
  rw [mergeJson_obj, getField, findF_append, findF_mergeFields]
  rcases hf : findF f bs with _ | v
  · rw [hf] at hb; cases hb
  · rcases findF f ps with _ | pv <;> rfl

/-- A context-local write seen from the root: replacing the subtree at
the context path by a successful `setParts` rewrite of the context keeps
every top-level field away from the path unchanged, keeps every
top-level field present, and keeps the context object resolvable with
its `_this` key. -/
theorem replaceSubtree_preserve (root c : Json) (h0 : String) (t : List String)
    (ctx : Json) (hres : resolveJ root (h0 :: t) = .ok ctx)
    (val : Json) (parts : List String) (hset : setParts val parts ctx = .ok c) :
    (∀ f, h0 ≠ f → getField (replaceSubtree root (h0 :: t) c) f = getField root f)
    ∧ (∀ f, (getField root f).isSome = true →
        (getField (replaceSubtree root (h0 :: t) c) f).isSome = true)
    ∧ (∀ sub, resolveJ root (h0 :: t) = .ok sub → (getField sub "_this").isSome = true →
        ∃ sub2, resolveJ (replaceSubtree root (h0 :: t) c) (h0 :: t) = .ok sub2 ∧
          (getField sub2 "_this").isSome = true) := by
  refine ⟨?_, ?_, ?_⟩
  · intro f hne
    exact replaceSubtree_getField root c h0 t f hne
  · intro f hf
    exact replaceSubtree_isSome root c h0 t f hf
  · intro sub hrsub hpres
    have hcs : sub = ctx := by
      rw [hrsub] at hres
      exact (Except.ok.injEq _ _).mp hres
    obtain ⟨fs, hfs⟩ := getField_isSome_obj sub "_this" hpres
    rw [← hcs, hfs] at hset
    obtain ⟨fs2, hc2, hpres2, _⟩ := setParts_obj_result _ _ fs c hset
    have hpf : (findF "_this" fs).isSome = true := by
      simpa [getField, hfs] using hpres
    refine ⟨c, ?_, ?_⟩
    · exact resolve_replaceSubtree (h0 :: t) root ctx c hres
    · simp only [hc2, getField]
      exact hpres2 "_this" hpf

/-- One `_process_property` call with absolute merge pointers: the write
lands inside the context object, so every top-level field away from the
context path keeps its value, every top-level field stays present, and
the context object keeps its `_this` key. -/
theorem processProperty_preserve (keyLu : List (String × FieldDef))
    (H1 : ∀ p ∈ keyLu, p.2.merge_pointer.toList.head? = some '/')
    (key : String) (rawVal : Json) (root : Json) (h0 : String) (t : List String)
    (cps : String) (root2 : Json) (fe? : Option FileEntry)
    (h : processProperty keyLu key rawVal root (h0 :: t) cps = .ok (root2, fe?)) :
    (∀ f, h0 ≠ f → getField root2 f = getField root f)
    ∧ (∀ f, (getField root f).isSome = true → (getField root2 f).isSome = true)
    ∧ (∀ sub, resolveJ root (h0 :: t) = .ok sub → (getField sub "_this").isSome = true →
        ∃ sub2, resolveJ root2 (h0 :: t) = .ok sub2 ∧
          (getField sub2 "_this").isSome = true) := by
  rw [processProperty] at h
  split at h
  · exact Except.noConfusion h
  · rename_i fd hfd
    obtain ⟨m, hmem⟩ := findFD_mem _ _ _ hfd
    have habs0 : fd.merge_pointer.toList.head? = some '/' := H1 (m, fd) hmem
    split at h
    · exact Except.noConfusion h
    · rename_i r2 hsv
      have habs : (if fd.is_artifact then fd.merge_pointer ++ "/upload_placeholder"
          else fd.merge_pointer).toList.head? = some '/' := by
        split
        · exact head_append_slash fd.merge_pointer "/upload_placeholder" habs0
        · exact habs0
      obtain ⟨ctx, c, hres, hset, hrepl⟩ := setValG_abs_ok _ _ _ _ _ _ _ habs hsv
      have hr2 : root2 = r2 := by
        split at h
        · split at h
          · exact Except.noConfusion h
          · split at h
            · simp only [Except.ok.injEq, Prod.mk.injEq] at h
              exact h.1.symm
            · exact Except.noConfusion h
        · simp only [Except.ok.injEq, Prod.mk.injEq] at h
          exact h.1.symm
      subst hr2
      rw [hrepl]
      exact replaceSubtree_preserve root c h0 t ctx hres _ _ hset

/-- The cell loop inherits the per-property preservation facts. -/
theorem processRow_preserve (keyLu : List (String × FieldDef))
    (H1 : ∀ p ∈ keyLu, p.2.merge_pointer.toList.head? = some '/') :
    ∀ (rows : List (String × Json)) (root : Json) (h0 : String) (t : List String)
      (cps : String) (root2 : Json) (files : List FileEntry),
      processRow keyLu rows root (h0 :: t) cps = .ok (root2, files) →
      (∀ f, h0 ≠ f → getField root2 f = getField root f)
      ∧ (∀ f, (getField root f).isSome = true → (getField root2 f).isSome = true)
      ∧ (∀ sub, resolveJ root (h0 :: t) = .ok sub → (getField sub "_this").isSome = true →
          ∃ sub2, resolveJ root2 (h0 :: t) = .ok sub2 ∧
            (getField sub2 "_this").isSome = true) := by
  intro rows
  induction rows with
  | nil =>
    intro root h0 t cps root2 files h
    simp only [processRow, Except.ok.injEq, Prod.mk.injEq] at h
    obtain ⟨h1, h2⟩ := h
    subst h1
    exact ⟨fun f _ => rfl, fun f hf => hf, fun sub hs hp => ⟨sub, hs, hp⟩⟩
  | cons kv rest ih =>
    intro root h0 t cps root2 files h
    obtain ⟨key, rawVal⟩ := kv
    rw [processRow] at h
    split at h
    · exact Except.noConfusion h
    · rename_i r2 fQ hmid
      split at h
      · exact Except.noConfusion h
      · rename_i r3 fls hfin
        simp only [Except.ok.injEq, Prod.mk.injEq] at h
        obtain ⟨h5, h6⟩ := h
        subst h5
        have hp := processProperty_preserve keyLu H1 key rawVal root h0 t cps _ _ hmid
        have hr := ih r2 h0 t cps _ _ hfin
        refine ⟨?_, ?_, ?_⟩
        · intro f hne
          exact (hr.1 f hne).trans (hp.1 f hne)
        · intro f hf
          exact hr.2.1 f (hp.2.1 f hf)
        · intro sub hs hpres
          obtain ⟨s2, hs2, hp2⟩ := hp.2.2 sub hs hpres
          exact hr.2.2 s2 hs2 hp2


theorem append_singleton_cons (ys : List String) (x : String) :
    ∃ h0 t, ys ++ [x] = h0 :: t := by
  cases ys with
  | nil => exact ⟨x, [], rfl⟩
  | cons y ys2 => exact ⟨y, ys2 ++ [x], rfl⟩

/-- The context path handed to the cell loop is never empty when the
data pointer is absolute. -/
theorem dataObjPath_cons (P : String) (j : Json) (habs : P.toList.head? = some '/') :
    ∃ h0 t, dataObjPath P j = h0 :: t := by
  obtain ⟨a, l, hal⟩ := ptrParts_cons P habs
  simp only [dataObjPath]
  rw [hal]
  by_cases hd : (a :: l).getLast? = some "-"
  · rw [if_pos hd]
    split
    · exact append_singleton_cons _ _
    · exact append_singleton_cons _ _
  · rw [if_neg hd]
    exact ⟨a, l, rfl⟩

/-- Without a trailing dash the context path is the pointer's parts. -/
theorem dataObjPath_no_dash (P : String) (j : Json)
    (hd : "-" ∉ ptrParts P) : dataObjPath P j = ptrParts P := by
  simp only [dataObjPath]
  rw [if_neg (fun hlast => hd (getLast?_mem_str _ _ hlast))]

/-- Restamping the bookkeeping key on a dict yields the new marker. -/
theorem setThis_this (j : Json) (v : String) (hobj : (getField j "_this").isSome = true) :
    getField (setThis j v) "_this" = some (.str v) := by
  obtain ⟨fs, rfl⟩ := getField_isSome_obj j "_this" hobj
  simp only [setThis, getField]
  exact setF_get fs "_this" (.str v)

/-- The data rows loop keeps the accumulated preamble object a dict with
its `_this` key: every per-row copy keeps the key through the data-object
attachment and the cell loop, and the external merge keeps every base
field. -/
theorem processDataRows_this (keyLu : List (String × FieldDef))
    (H1 : ∀ p ∈ keyLu, p.2.merge_pointer.toList.head? = some '/')
    (k wsName dataPointer : String) (headers : List String) :
    ∀ (rows : List (List Json)) (i : Nat) (pre pf : Json) (files : List FileEntry),
      processDataRows keyLu k wsName dataPointer headers rows i pre = .ok (pf, files) →
      (getField pre "_this").isSome = true → (getField pf "_this").isSome = true := by
  intro rows
  induction rows with
  | nil =>
    intro i pre pf files h hpre
    simp only [processDataRows, Except.ok.injEq, Prod.mk.injEq] at h
    rw [← h.1]
    exact hpre
  | cons row rest ih =>
    intro i pre pf files h hpre
    rw [processDataRows] at h
    split at h
    · exact Except.noConfusion h
    · rename_i copy2 hsv
      split at h
      · exact Except.noConfusion h
      · rename_i copy3 fls hrow
        split at h
        · exact Except.noConfusion h
        · rename_i pf2 fls2 hrec
          simp only [Except.ok.injEq, Prod.mk.injEq] at h
          obtain ⟨h5, _⟩ := h
          subst h5
          have hcopyS : (getField
              (setThis pre ("copy_of_preamble_obj_" ++ wsName ++ "_" ++ toString i))
              "_this").isSome = true := by
            rw [setThis_this pre _ hpre]
            rfl
          obtain ⟨habsP, hsp⟩ := setValG_none_ok _ _ _ _ hsv
          obtain ⟨fs, hfs⟩ := getField_isSome_obj _ "_this" hcopyS
          rw [hfs] at hsp
          obtain ⟨fs2, hc2, hpres2, _⟩ := setParts_obj_result _ _ fs copy2 hsp
          have hcopy2 : (getField copy2 "_this").isSome = true := by
            simp only [hc2, getField]
            apply hpres2
            simpa [getField, hfs] using hcopyS
          obtain ⟨h0, t, hpath⟩ := dataObjPath_cons dataPointer copy2 habsP
          rw [hpath] at hrow
          have hcopy3 :=
            (processRow_preserve keyLu H1 _ copy2 h0 t dataPointer _ _ hrow).2.1
              "_this" hcopy2
          obtain ⟨bs, hbs⟩ := getField_isSome_obj pre "_this" hpre
          obtain ⟨ps, hps⟩ := getField_isSome_obj copy3 "_this" hcopy3
          have hmerge : (getField (mergeJson k pre copy3) "_this").isSome = true := by
            rw [hbs, hps]
            apply getField_mergeJson_isSome
            simpa [getField, hbs] using hpre
          exact ih (i + 1) _ _ _ hrec hmerge

/-- One worksheet: the root's top-level `_this` entry keeps its value
when the preamble pointer's first segment is not `_this`, and the
attached preamble object stays resolvable at the preamble pointer with
its `_this` key through the preamble rows. -/
theorem processWorksheet_this (keyLu : List (String × FieldDef))
    (H1 : ∀ p ∈ keyLu, p.2.merge_pointer.toList.head? = some '/')
    (k : String) (root r3 : Json) (ws : Worksheet) (files3 : List FileEntry)
    (h : processWorksheet keyLu k root ws = .ok (r3, files3))
    (hdash : "-" ∉ ptrParts ws.preamble_pointer) :
    (∀ v, (ptrParts ws.preamble_pointer).head? ≠ some "_this" →
        getField root "_this" = some v → getField r3 "_this" = some v)
    ∧ (∃ att, resolveJ r3 (ptrParts ws.preamble_pointer) = .ok att ∧
        (getField att "_this").isSome = true) := by
  rw [processWorksheet] at h
  split at h
  · exact Except.noConfusion h
  · rename_i preambleF files1 hpd
    split at h
    · exact Except.noConfusion h
    · rename_i root2 hsv
      split at h
      · exact Except.noConfusion h
      · rename_i root3 files2 hrow
        simp only [Except.ok.injEq, Prod.mk.injEq] at h
        obtain ⟨h5, _⟩ := h
        subst h5
        obtain ⟨habsP, hsp⟩ := setValG_none_ok _ _ _ _ hsv
        obtain ⟨h0, t, hpt⟩ := ptrParts_cons _ habsP
        rw [dataObjPath_no_dash _ _ hdash, hpt] at hrow
        have hpreF : (getField preambleF "_this").isSome = true :=
          processDataRows_this keyLu H1 k ws.name ws.data_pointer ws.headers
            ws.data_rows 0 _ preambleF _ hpd (by rfl)
        have hpr :=
          processRow_preserve keyLu H1 ws.preamble_rows root2 h0 t
            ws.preamble_pointer _ _ hrow
        constructor
        · intro v hhead hroot
          obtain ⟨fs, hfs⟩ := getField_isSome_obj root "_this" (by rw [hroot]; rfl)
          rw [hfs] at hsp
          obtain ⟨fs2, hc2, _, hother⟩ := setParts_obj_result _ _ fs root2 hsp
          have hroot2 : getField root2 "_this" = getField root "_this" := by
            rw [hc2, hfs, getField, getField]
            exact hother "_this" hhead
          have hne : h0 ≠ "_this" := by
            intro e
            rw [hpt] at hhead
            apply hhead
            rw [List.head?_cons, e]
          rw [hpr.1 "_this" hne, hroot2]
          exact hroot
        · have hres2 : resolveJ root2 (ptrParts ws.preamble_pointer) = .ok preambleF :=
            setParts_resolve preambleF (ptrParts ws.preamble_pointer) root root2 hdash hsp
          rw [hpt] at hres2
          obtain ⟨att, hatt, hattp⟩ := hpr.2.2 preambleF hres2 hpreF
          rw [hpt]
          exact ⟨att, hatt, hattp⟩

/-- The worksheet fold preserves the root's top-level `_this` entry. -/
theorem processWorksheets_this (keyLu : List (String × FieldDef))
    (H1 : ∀ p ∈ keyLu, p.2.merge_pointer.toList.head? = some '/') (k : String) :
    ∀ (wss : List Worksheet) (root root' : Json) (files : List FileEntry),
      (∀ ws ∈ wss, "-" ∉ ptrParts ws.preamble_pointer ∧
        (ptrParts ws.preamble_pointer).head? ≠ some "_this") →
      processWorksheets keyLu k wss root = .ok (root', files) →
      ∀ v, getField root "_this" = some v → getField root' "_this" = some v := by
  intro wss
  induction wss with
  | nil =>
    intro root root' files hws h v hv
    simp only [processWorksheets, Except.ok.injEq, Prod.mk.injEq] at h
    rw [← h.1]
    exact hv
  | cons ws rest ih =>
    intro root root' files hws h v hv
    rw [processWorksheets] at h
    split at h
    · exact Except.noConfusion h
    · rename_i r2 fls hws1
      split at h
      · exact Except.noConfusion h
      · rename_i r3 fls2 hrest
        simp only [Except.ok.injEq, Prod.mk.injEq] at h
        obtain ⟨h5, _⟩ := h
        subst h5
        have hw := hws ws (List.mem_cons_self _ _)
        have hstep :=
          (processWorksheet_this keyLu H1 k root r2 ws fls hws1 hw.1).1 v hw.2 hv
        exact ih r2 _ fls2 (fun w hwmem => hws w (List.mem_cons_of_mem _ hwmem)) hrest v hstep

/-- A concrete non-artifact template field for the C9 witness run. -/
def exFieldDef : FieldDef :=
  { merge_pointer := "/fld", is_artifact := false, coerce := fun v => v }

/-- A concrete template key lookup for the C9 witness run. -/
def exKeyLu : List (String × FieldDef) := [("f", exFieldDef)]

/-- A concrete worksheet for the C9 witness run: one data row and one
preamble row, both using the template key. -/
def exWorksheet : Worksheet :=
  { name := "W", preamble_pointer := "/pp", data_pointer := "/recs/-",
    headers := ["f"], data_rows := [[.str "v1"]], preamble_rows := [("f", .str "p1")] }

/-- Claim C9: for every successful run (under the template sanity that
every merge pointer is absolute and every worksheet preamble pointer is
dash-free with a first segment other than the marker key), the root
document returned by prismify carries the bookkeeping entry
`"_this": "root"` at top level, and each worksheet attaches a preamble
object that the worksheet's final root still resolves at the preamble
pointer and that contains a `_this` key. -/
theorem prismify_this_markers (assayHint k : String) (keyLu : List (String × FieldDef))
    (worksheets : List Worksheet) (tv : Bool)
    (H1 : ∀ p ∈ keyLu, p.2.merge_pointer.toList.head? = some '/')
    (H2 : ∀ ws ∈ worksheets, "-" ∉ ptrParts ws.preamble_pointer ∧
      (ptrParts ws.preamble_pointer).head? ≠ some "_this") :
    (∀ root files, prismify assayHint keyLu k worksheets tv = .ok (root, files) →
      getField root "_this" = some (.str "root"))
    ∧ (∀ ws ∈ worksheets, ∀ (r r3 : Json) (files3 : List FileEntry),
        processWorksheet keyLu k r ws = .ok (r3, files3) →
        ∃ att, resolveJ r3 (ptrParts ws.preamble_pointer) = .ok att ∧
          (getField att "_this").isSome = true) := by
  constructor
  · intro root files h
    rw [prismify] at h
    by_cases ha : assayHint = "wes"
    · rw [if_pos ha] at h
      by_cases htv : tv = true
      · rw [if_pos htv] at h
        exact processWorksheets_this keyLu H1 k worksheets _ root files H2 h
          (.str "root") (by rfl)
      · rw [if_neg htv] at h
        exact Except.noConfusion h
    · rw [if_neg ha] at h
      exact Except.noConfusion h
  · intro ws hmem r r3 files3 h
    exact (processWorksheet_this keyLu H1 k r r3 ws files3 h (H2 ws hmem).1).2

/-- The document produced by the C9 witness run. -/
def exRoot : Json :=
  .obj [("_this", .str "root"),
        ("pp", .obj [("_this", .str "copy_of_preamble_obj_W_0"),
                     ("recs", .arr [.obj [("_this", .str "data_obj_0"), ("fld", .str "v1")]]),
                     ("fld", .str "p1")])]

/-- Witness for C9: a concrete one-worksheet run evaluates successfully;
the root keeps the marker entry and the attached preamble object keeps
its marker key. -/
theorem prismify_this_markers_witness :
    prismify "wes" exKeyLu "id" [exWorksheet] true = .ok (exRoot, [])
    ∧ getField exRoot "_this" = some (.str "root")
    ∧ processWorksheet exKeyLu "id" (.obj [("_this", .str "root")]) exWorksheet
        = .ok (exRoot, [])
    ∧ ∃ att, resolveJ exRoot (ptrParts exWorksheet.preamble_pointer) = .ok att ∧
        (getField att "_this").isSome = true := by
  have h := prismify_this_markers "wes" "id" exKeyLu [exWorksheet] true
    (by
      intro p hp
      simp only [exKeyLu, List.mem_singleton] at hp
      rw [hp]
      rfl)
    (by
      intro ws hw
      simp only [List.mem_singleton] at hw
      rw [hw]
      exact ⟨by decide, by decide⟩)
  refine ⟨rfl, h.1 exRoot [] rfl, rfl, ?_⟩
  exact h.2 exWorksheet (List.mem_singleton.mpr rfl) (.obj [("_this", .str "root")]) exRoot [] rfl
